import Mathlib

/-!
Verification of the swiftline CLI (JSON path selection and HTTP GET helpers).

The Rust sources are embedded shallowly: strings are lists of characters,
serde_json values are the inductive type Value below, fallible operations
return Option or Except, and the stateful command entry points are modelled
as functions from their inputs (with external collaborators such as the
strict/relaxed JSON grammars, URL parsing and header-token validation taken
as parameters) to a result together with the list of strings printed to
standard output.
-/

namespace Swiftline

/-! ## Characters and small string utilities -/

/-- Decimal digit character for a value below ten (codepoint 48 is the digit zero). -/
def digitChar (n : Nat) : Char := Char.ofNat (48 + n)

/-- Numeric value of a decimal digit character. -/
def digitVal (c : Char) : Nat := c.toNat - 48

/-- Value of a list of decimal digit characters, most significant first. -/
def decimalValue (ds : List Char) : Nat :=
  ds.foldl (fun acc c => 10 * acc + digitVal c) 0

/-- Rust str::split for a one-character pattern: every occurrence separates,
empty pieces are kept, and the empty string yields one empty piece. -/
def splitChar (c : Char) : List Char → List (List Char)
  | [] => [[]]
  | x :: xs =>
    if x = c then [] :: splitChar c xs
    else
      match splitChar c xs with
      | [] => [[x]]
      | s :: rest => (x :: s) :: rest

/-- Rust str::split_once for a one-character pattern: the pieces before and
after the first occurrence, or none when the character does not occur. -/
def splitOnceChar (c : Char) : List Char → Option (List Char × List Char)
  | [] => none
  | x :: xs =>
    if x = c then some ([], xs)
    else
      match splitOnceChar c xs with
      | none => none
      | some (a, b) => some (x :: a, b)

/-- Rust str::ends_with for a one-character pattern. -/
def endsWithChar (c : Char) (s : List Char) : Bool := s.getLast? = some c

/-- Whether a character occurs in the list, as Rust str::contains of a char. -/
def containsChar (s : List Char) (c : Char) : Bool := s.any (fun x => x = c)

/-- Whether the first list starts with the second list. -/
def startsWithChars : List Char → List Char → Bool
  | _, [] => true
  | [], _ :: _ => false
  | a :: as', b :: bs => a = b && startsWithChars as' bs

/-- Rust str::contains of a substring pattern: some contiguous run of the
haystack equals the needle. -/
def containsSub : List Char → List Char → Bool
  | [], needle => startsWithChars [] needle
  | c :: t, needle => startsWithChars (c :: t) needle || containsSub t needle

/-- The whitespace test used by Rust char::is_whitespace, restricted to the
ASCII fragment (the inputs the claims exercise are ASCII; other Unicode
whitespace is outside the model). -/
def isWsChar (c : Char) : Bool := c = ' ' || c = '\t' || c = '\n' || c = '\r'

/-- Rust str::trim: remove leading and trailing whitespace. -/
def rustTrim (s : List Char) : List Char :=
  ((s.dropWhile isWsChar).reverse.dropWhile isWsChar).reverse

/-- Rust char::is_alphabetic restricted to its ASCII fragment (the letter
test agrees with Unicode Alphabetic on ASCII; non-ASCII letters are outside
the model). -/
def rustIsAlphabetic (c : Char) : Bool := c.isAlpha

/-- Rust str::parse::<usize> on a 64-bit target: an optional leading plus
sign, then one or more ASCII decimal digits, rejecting the empty digit run
and any value that overflows 64 bits. -/
def parseUsize (s : List Char) : Option Nat :=
  let ds := match s with
    | '+' :: rest => rest
    | _ => s
  if ds.isEmpty then none
  else if ds.all Char.isDigit then
    let n := decimalValue ds
    if n < 2 ^ 64 then some n else none
  else none

/-! ## The JSON value model

serde_json::Value with object insertion order preserved, per the spec data
model. Numbers are modelled as integers: the floating-point half of
serde_json::Number is outside the model. -/

inductive Value where
  | null
  | bool (b : Bool)
  | num (n : Int)
  | str (s : List Char)
  | arr (elems : List Value)
  | obj (entries : List (List Char × Value))

/-- Lookup of an object entry by key, first match (keys of a parsed document
are unique). -/
def objFind : List (List Char × Value) → List Char → Option Value
  | [], _ => none
  | (k, v) :: rest, key => if k = key then some v else objFind rest key

/-- serde_json Value::get with a string key: a field of an object, none on
any other variant or a missing key. -/
def getField : Value → List Char → Option Value
  | .obj entries, key => objFind entries key
  | _, _ => none

/-- serde_json Value::get with a usize index: an element of an array, none on
any other variant or an out-of-range index. -/
def getIndex : Value → Nat → Option Value
  | .arr xs, i => xs.get? i
  | _, _ => none

/-! ## The path resolver (get_by_path in src/commands/json_select.rs) -/

/-- The body of the bracket branch of get_by_path's loop, after split_once
found an opening bracket: a field lookup when the prefix is non-empty, then
the suffix must end with the closing bracket, its interior (the byte slice
up to the final one-byte bracket, here the char-list dropLast) must parse as
a usize, and that index selects an array element. -/
def bracketStep (cur : Value) (name rest : List Char) : Option Value :=
  (if name.isEmpty then some cur else getField cur name).bind fun cur2 =>
    if endsWithChar ']' rest then
      (parseUsize rest.dropLast).bind fun idx => getIndex cur2 idx
    else none

/-- The loop of get_by_path over the dot-separated segments: an empty
segment aborts with none; a segment with a bracket takes the bracket branch;
any other segment is a plain field lookup. -/
def resolveSegs : Value → List (List Char) → Option Value
  | cur, [] => some cur
  | cur, seg :: segs =>
    if seg.isEmpty then none
    else
      match splitOnceChar '[' seg with
      | some (name, rest) => (bracketStep cur name rest).bind fun cur2 => resolveSegs cur2 segs
      | none => (getField cur seg).bind fun cur2 => resolveSegs cur2 segs

/-- get_by_path from src/commands/json_select.rs: split the path on dots and
walk the segments. -/
def get_by_path (value : Value) (path : List Char) : Option Value :=
  resolveSegs value (splitChar '.' path)

/-- Modelled from the spec (section 4.3 Path Resolver), for comparison with
the source translation get_by_path: the step for one non-empty segment. If
the segment contains an opening bracket, split it at the first one into a
field-name prefix and a bracket suffix; a non-empty prefix is looked up as
an object field; the suffix must end with the closing bracket and its
interior must parse as a non-negative integer, which indexes the current
value as an array position. A segment with no bracket is a plain field
lookup. -/
def specSegStep (cur : Value) (seg : List Char) : Option Value :=
  if containsChar seg '[' then
    (if (seg.takeWhile (fun c => c != '[')).isEmpty then some cur
     else getField cur (seg.takeWhile (fun c => c != '['))).bind fun cv =>
      if endsWithChar ']' ((seg.dropWhile (fun c => c != '[')).drop 1) then
        match parseUsize ((seg.dropWhile (fun c => c != '[')).drop 1).dropLast with
        | some idx => getIndex cv idx
        | none => none
      else none
  else getField cur seg

/-- Modelled from the spec (section 4.3 Path Resolver), for comparison with
the source translation get_by_path: split the path on dots; an empty segment
immediately yields not-found for the whole expression; otherwise fold the
segment step over the segments in order. -/
def resolveSpec (v : Value) (path : List Char) : Option Value :=
  (splitChar '.' path).foldlM
    (fun cur seg => if seg.isEmpty then none else specSegStep cur seg) v

/-! ## The path resolver with its partial Rust primitives made explicit

The loop body of get_by_path slices the bracket suffix with
rest[..rest.len() - 1]. On a usize, the subtraction faults on underflow and
the range slice faults past the end of the string (a Rust panic); every
other operation of the function is total by its signature. The checked
variant returns an error wherever the original could fault, so proving it
never returns an error is the totality claim. -/

/-- Checked natural subtraction, modelling Rust usize subtraction: an error
models the underflow fault. -/
def checkedSub (a b : Nat) : Except Unit Nat :=
  if b ≤ a then .ok (a - b) else .error ()

/-- Checked prefix slice, modelling the Rust byte-range slice s[..k]: an
error models the out-of-bounds fault. The final character of the sliced
suffix is the one-byte close bracket, so the char-boundary condition of the
byte slice holds whenever the bound does. -/
def checkedTake (s : List Char) (k : Nat) : Except Unit (List Char) :=
  if k ≤ s.length then .ok (s.take k) else .error ()

/-- The bracket branch with the partial slice primitives explicit: an error
models a fault, an ok value carries the Option result of the step. -/
def bracketStepChecked (cur : Value) (name rest : List Char) :
    Except Unit (Option Value) :=
  match if name.isEmpty then some cur else getField cur name with
  | none => .ok none
  | some cur2 =>
    if endsWithChar ']' rest then
      match checkedSub rest.length 1 with
      | .error e => .error e
      | .ok k =>
        match checkedTake rest k with
        | .error e => .error e
        | .ok idxStr =>
          match parseUsize idxStr with
          | none => .ok none
          | some idx => .ok (getIndex cur2 idx)
    else .ok none

/-- The loop of get_by_path in the checked model. -/
def resolveSegsChecked : Value → List (List Char) → Except Unit (Option Value)
  | cur, [] => .ok (some cur)
  | cur, seg :: segs =>
    if seg.isEmpty then .ok none
    else
      match splitOnceChar '[' seg with
      | some (name, rest) =>
        match bracketStepChecked cur name rest with
        | .error e => .error e
        | .ok none => .ok none
        | .ok (some cur2) => resolveSegsChecked cur2 segs
      | none =>
        match getField cur seg with
        | none => .ok none
        | some cur2 => resolveSegsChecked cur2 segs

/-- get_by_path in the checked model. -/
def get_by_pathChecked (value : Value) (path : List Char) : Except Unit (Option Value) :=
  resolveSegsChecked value (splitChar '.' path)

/-! ## The parser front end (parse_json and analyze_json_error) -/

/-- Hint text pushed for a single quote adjacent to a brace. -/
def hintQuotesAroundJson : List Char :=
  " - avoid single quotes around the entire JSON".toList

/-- Hint text pushed for a single-quoted string value. -/
def hintSingleQuotedValues : List Char :=
  " - string values must use double quotes, not single quotes".toList

/-- Hint text pushed for alphabetic input with no double quote anywhere. -/
def hintUnquotedKeys : List Char :=
  " - keys must be in double quotes".toList

/-- The fixed usage-examples block appended by analyze_json_error, verbatim
from the source. -/
def usageExamples : List Char :=
  ("\n\nExamples of valid JSON:"
    ++ "\n  PowerShell: --text \x27\x7b\"a\":\x7b\"b\":[1,2,3]\x7d\x7d\x27"
    ++ "\n  CMD:        --text \"\x7b\\\"a\\\":\x7b\\\"b\\\":[1,2,3]\x7d\x7d\""
    ++ "\n\nAlternative options:"
    ++ "\n  Use --json5 for relaxed parsing: --json5 --text \x27\x7ba:\x7bb:[1,2,3]\x7d\x7d\x27"
    ++ "\n  Use stdin: echo \x27\x7b\"a\":\x7b\"b\":[1,2,3]\x7d\x7d\x27 | swiftline json select --path a.b[2]"
    ++ "\n  Use file: swiftline json select --file data.json --path a.b[2]").toList

/-- analyze_json_error from src/commands/json_select.rs: the base message,
then the first matching heuristic hint of an else-if chain (single quote
adjacent to a brace, then a single-quoted value, then alphabetic input with
no double quote), then the usage examples, then the original parser error. -/
def analyze_json_error (input error : List Char) : List Char :=
  "Invalid JSON format".toList
    ++ (if containsSub input ("\x27\x7b".toList) || containsSub input ("\x7d\x27".toList) then
          hintQuotesAroundJson
        else if containsSub input (": \x27".toList) then
          hintSingleQuotedValues
        else if input.any rustIsAlphabetic && !(containsChar input '"') then
          hintUnquotedKeys
        else [])
    ++ usageExamples
    ++ "\n\nOriginal error: ".toList ++ error

/-- parse_json from src/commands/json_select.rs, over the two external
grammars (serde_json strict and json5 relaxed) taken as parameters: strict
first, returning its value immediately on success; on strict failure,
relaxed when enabled, else the diagnostic message; when both grammars fail,
an error carrying both error texts. -/
def parse_json (strict relaxed : List Char → Except (List Char) Value)
    (input : List Char) (use_json5 : Bool) : Except (List Char) Value :=
  match strict input with
  | .ok value => .ok value
  | .error strictError =>
    if use_json5 then
      match relaxed input with
      | .ok value => .ok value
      | .error json5Error =>
        .error ("Failed to parse as JSON or JSON5\n\nStrict JSON error: ".toList
          ++ strictError ++ "\nJSON5 error: ".toList ++ json5Error)
    else .error (analyze_json_error input strictError)

/-! ## Number and string rendering shared by the printers -/

/-- Hexadecimal digit character, lowercase as serde_json emits it. -/
def hexDigitChar (n : Nat) : Char :=
  if n < 10 then Char.ofNat (48 + n) else Char.ofNat (87 + n)

/-- serde_json string escaping for one character: the two-character escapes
for quote, backslash and the named controls, a four-hex-digit escape for the
remaining control characters, and every other character itself. -/
def escapeChar (c : Char) : List Char :=
  if c = '"' then ['\\', '"']
  else if c = '\\' then ['\\', '\\']
  else if c = '\x08' then ['\\', 'b']
  else if c = '\x09' then ['\\', 't']
  else if c = '\x0a' then ['\\', 'n']
  else if c = '\x0c' then ['\\', 'f']
  else if c = '\x0d' then ['\\', 'r']
  else if c.toNat < 32 then
    ['\\', 'u', '0', '0', hexDigitChar (c.toNat / 16), hexDigitChar (c.toNat % 16)]
  else [c]

/-- serde_json string escaping over a whole string. -/
def escapeChars : List Char → List Char
  | [] => []
  | c :: cs => escapeChar c ++ escapeChars cs

/-- A JSON string literal: the escaped text between double quotes. -/
def quoteChars (s : List Char) : List Char := '"' :: escapeChars s ++ ['"']

/-- Decimal digits of a natural number, most significant first. -/
def natChars (n : Nat) : List Char :=
  if n < 10 then [digitChar n] else natChars (n / 10) ++ [digitChar (n % 10)]
termination_by n
decreasing_by exact Nat.div_lt_self (by omega) (by omega)

/-- Decimal rendering of an integer. -/
def intChars (n : Int) : List Char :=
  if n < 0 then '-' :: natChars n.natAbs else natChars n.toNat

/-! ## The pretty printer used for found values

colored_json::to_colored_json_auto renders the value in the serde_json
pretty format, two spaces of indentation per nesting level; off a terminal
the coloring is disabled, so the text below is the output. The ANSI color
codes added on a terminal are presentation and outside the model. -/

mutual

/-- Pretty rendering of a value at a nesting depth. -/
def prettyVal : Nat → Value → List Char
  | _, .null => 'n' :: 'u' :: 'l' :: 'l' :: []
  | _, .bool true => 't' :: 'r' :: 'u' :: 'e' :: []
  | _, .bool false => 'f' :: 'a' :: 'l' :: 's' :: 'e' :: []
  | _, .num n => intChars n
  | _, .str s => quoteChars s
  | _, .arr [] => ['[', ']']
  | d, .arr (x :: xs) =>
    '[' :: '\n' :: (prettyItems (d + 1) x xs ++ '\n' :: List.replicate (2 * d) ' ' ++ [']'])
  | _, .obj [] => ['\x7b', '\x7d']
  | d, .obj (e :: es) =>
    '\x7b' :: '\n' :: (prettyEntries (d + 1) e es ++ '\n' :: List.replicate (2 * d) ' ' ++ ['\x7d'])
termination_by _ v => sizeOf v
decreasing_by all_goals (simp; try omega)

/-- Pretty rendering of the comma-separated items of a non-empty array. -/
def prettyItems : Nat → Value → List Value → List Char
  | d, x, [] => List.replicate (2 * d) ' ' ++ prettyVal d x
  | d, x, y :: ys =>
    List.replicate (2 * d) ' ' ++ prettyVal d x ++ ',' :: '\n' :: prettyItems d y ys
termination_by _ x xs => 1 + sizeOf x + sizeOf xs
decreasing_by all_goals (simp; try omega)

/-- Pretty rendering of the comma-separated entries of a non-empty object. -/
def prettyEntries : Nat → (List Char × Value) → List (List Char × Value) → List Char
  | d, (k, v), [] => List.replicate (2 * d) ' ' ++ quoteChars k ++ ':' :: ' ' :: prettyVal d v
  | d, (k, v), e :: es =>
    List.replicate (2 * d) ' ' ++ quoteChars k ++ ':' :: ' ' :: prettyVal d v
      ++ ',' :: '\n' :: prettyEntries d e es
termination_by _ e es => 1 + sizeOf e + sizeOf es
decreasing_by all_goals (simp; try omega)

end

/-- Rendering of a found value as printed by json select. -/
def renderPretty (v : Value) : List Char := prettyVal 0 v

/-! ## The json select command (run in src/commands/json_select.rs) -/

/-- The text of the title line printed by style::title. The bold/underline
ANSI wrapping is terminal presentation and outside the model. -/
def titleLine : List Char := "JSON Select".toList

/-- The sentinel printed when the path resolves to nothing. -/
def notFoundSentinel : List Char := "(null)".toList

/-- run from src/commands/json_select.rs, over the two external grammars
taken as parameters. The input argument is the outcome of get_input (file,
inline text or standard input are external I O, so only their result is
modelled). The result pairs the Result of the command (ok models process
exit code 0) with the strings printed to standard output, in order: the
title first, then — when input and parsing succeed — the rendered value or
the not-found sentinel. -/
def json_select_run (strict relaxed : List Char → Except (List Char) Value)
    (input : Except (List Char) (List Char)) (use_json5 : Bool) (path : List Char) :
    Except (List Char) Unit × List (List Char) :=
  let out := [titleLine]
  match input with
  | .error e => (.error e, out)
  | .ok raw =>
    match parse_json strict relaxed (rustTrim raw) use_json5 with
    | .error e => (.error e, out)
    | .ok json =>
      match get_by_path json path with
      | some v => (.ok (), out ++ [renderPretty v])
      | none => (.ok (), out ++ [notFoundSentinel])

/-! ## The http get command (src/commands/http_get.rs) -/

/-- Parsing of one raw header string, over the external header-token
validators (the FromStr grammars of http HeaderName and HeaderValue) taken
as parameters: split at the first colon (no colon fails naming the entry),
then trim and validate the key and the value. -/
def parseHeaderItem (parseName parseVal : List Char → Option (List Char))
    (h : List Char) : Except (List Char) (List Char × List Char) :=
  match splitOnceChar ':' h with
  | none => .error ("Header must be key:value, got: ".toList ++ h)
  | some (k, v) =>
    match parseName (rustTrim k) with
    | none => .error ("Invalid header key: ".toList ++ k)
    | some key =>
      match parseVal (rustTrim v) with
      | none => .error ("Invalid header value for ".toList ++ k)
      | some val => .ok (key, val)

/-- parse_headers from src/commands/http_get.rs: fold over the items in
order; HeaderMap::append adds each parsed pair after the existing ones, so
the map is modelled as the list of pairs in input order and a duplicate key
contributes an additional pair rather than overwriting. -/
def parse_headers (parseName parseVal : List Char → Option (List Char))
    (items : List (List Char)) : Except (List Char) (List (List Char × List Char)) :=
  items.foldlM
    (fun map h => (parseHeaderItem parseName parseVal h).map fun kv => map ++ [kv]) []

/-- The observable pieces of a received HTTP response: the Display rendering
of the status, the content-type header when present and readable as text,
and the body both as the outcome of Response::json and as text. -/
structure HttpResponse where
  status : List Char
  contentType : Option (List Char)
  bodyJson : Except (List Char) Value
  bodyText : List Char

/-- What the no-save path prints after the status line: a pretty-printed
JSON body or the plain body text. -/
inductive RenderOutput where
  | jsonPretty (v : Value)
  | plainText (t : List Char)

/-- The tail of http_get::run on the no-save path: when pretty mode is on
and the content-type contains application/json, the body is parsed as JSON
(a failure is an error annotated with the observed status); otherwise the
body is printed as plain text without parsing. -/
def renderResponse (pretty : Bool) (resp : HttpResponse) :
    Except (List Char) RenderOutput :=
  let ct := resp.contentType.getD []
  if pretty && containsSub ct ("application/json".toList) then
    match resp.bodyJson with
    | .ok body => .ok (.jsonPretty body)
    | .error _ => .error ("Failed to parse JSON (status ".toList ++ resp.status ++ [')'])
  else .ok (.plainText resp.bodyText)

/-- run from src/commands/http_get.rs on the no-save path, over the external
URL grammar, header validators and network transport taken as parameters.
The Bool of the result records whether a request was handed to the
transport; a URL or header failure returns before that point, so it stays
false there. -/
def http_get_run (parseUrl : List Char → Option (List Char))
    (parseName parseVal : List Char → Option (List Char))
    (transport : List (List Char × List Char) → Except (List Char) HttpResponse)
    (url : List Char) (headers : List (List Char)) (pretty : Bool) :
    Bool × Except (List Char) RenderOutput :=
  match parseUrl url with
  | none => (false, .error ("Invalid URL: ".toList ++ url))
  | some _ =>
    match parse_headers parseName parseVal headers with
    | .error e => (false, .error e)
    | .ok hdrs =>
      match transport hdrs with
      | .error _ => (true, .error ("Network error while sending request".toList))
      | .ok resp => (true, renderResponse pretty resp)

/-! ## Serialization (for the round-trip property)

Modelled from the spec: serde_json::to_string, the compact rendering of the
standard JSON grammar — double-quoted escaped strings, no inserted
whitespace, array elements and object entries comma-separated in stored
order. serde_json is an external collaborator of the repository, so this is
written from the grammar the spec names rather than from repository code. -/

mutual

/-- Compact serialization of a value. -/
def serialize : Value → List Char
  | .null => 'n' :: 'u' :: 'l' :: 'l' :: []
  | .bool true => 't' :: 'r' :: 'u' :: 'e' :: []
  | .bool false => 'f' :: 'a' :: 'l' :: 's' :: 'e' :: []
  | .num n => intChars n
  | .str s => quoteChars s
  | .arr xs => '[' :: serializeItems xs
  | .obj es => '\x7b' :: serializeEntries es
termination_by v => sizeOf v
decreasing_by all_goals (simp; try omega)

/-- Serialization of array items, up to and including the closing bracket. -/
def serializeItems : List Value → List Char
  | [] => [']']
  | [x] => serialize x ++ [']']
  | x :: y :: ys => serialize x ++ ',' :: serializeItems (y :: ys)
termination_by xs => sizeOf xs
decreasing_by all_goals (simp; try omega)

/-- Serialization of object entries, up to and including the closing brace. -/
def serializeEntries : List (List Char × Value) → List Char
  | [] => ['\x7d']
  | [(k, v)] => quoteChars k ++ ':' :: serialize v ++ ['\x7d']
  | (k, v) :: e :: es => quoteChars k ++ ':' :: serialize v ++ ',' :: serializeEntries (e :: es)
termination_by es => sizeOf es
decreasing_by all_goals (simp; try omega)

end

/-! ## Strict parsing (for the round-trip property)

Modelled from the spec: strict JSON parsing (serde_json::from_str) — the
standard grammar with double-quoted keys and strings, no trailing commas,
no comments; whitespace allowed around structural tokens; the whole input
must be consumed. Within the integer number model, a fraction or exponent
continuation is outside the model and rejected; a document repeating an
object key keeps both entries in order (the spec says only that objects
preserve insertion order). The recursion is indexed by fuel that bounds the
nesting depth; the entry point supplies more fuel than any value the input
can denote could need. -/

/-- JSON insignificant whitespace (space, tab, line feed, carriage return);
the set coincides with the ASCII fragment of isWsChar. -/
def skipWs (s : List Char) : List Char := s.dropWhile isWsChar

/-- Value of a hexadecimal digit character, either case. -/
def hexVal (c : Char) : Option Nat :=
  if 48 ≤ c.toNat ∧ c.toNat ≤ 57 then some (c.toNat - 48)
  else if 97 ≤ c.toNat ∧ c.toNat ≤ 102 then some (c.toNat - 87)
  else if 65 ≤ c.toNat ∧ c.toNat ≤ 70 then some (c.toNat - 55)
  else none

/-- Body of a JSON string literal after the opening quote: the decoded
characters and the rest of the input after the closing quote. Escapes are
the standard single-character ones plus four-hex-digit scalar escapes
(surrogate pairs are outside the model; the serializer only emits the
two-hex-digit control escapes). Unescaped control characters are refused. -/
def parseStringBody : List Char → Option (List Char × List Char)
  | [] => none
  | c :: rest =>
    if c = '"' then some ([], rest)
    else if c = '\\' then
      match rest with
      | [] => none
      | e :: rest2 =>
        if e = '"' then (parseStringBody rest2).map fun p => ('"' :: p.1, p.2)
        else if e = '\\' then (parseStringBody rest2).map fun p => ('\\' :: p.1, p.2)
        else if e = '/' then (parseStringBody rest2).map fun p => ('/' :: p.1, p.2)
        else if e = 'b' then (parseStringBody rest2).map fun p => ('\x08' :: p.1, p.2)
        else if e = 'f' then (parseStringBody rest2).map fun p => ('\x0c' :: p.1, p.2)
        else if e = 'n' then (parseStringBody rest2).map fun p => ('\x0a' :: p.1, p.2)
        else if e = 'r' then (parseStringBody rest2).map fun p => ('\x0d' :: p.1, p.2)
        else if e = 't' then (parseStringBody rest2).map fun p => ('\x09' :: p.1, p.2)
        else if e = 'u' then
          match rest2 with
          | h1 :: h2 :: h3 :: h4 :: rest3 =>
            match hexVal h1, hexVal h2, hexVal h3, hexVal h4 with
            | some a, some b, some c2, some d =>
              let n := ((a * 16 + b) * 16 + c2) * 16 + d
              if Nat.isValidChar n then
                (parseStringBody rest3).map fun p => (Char.ofNat n :: p.1, p.2)
              else none
            | _, _, _, _ => none
          | _ => none
        else none
    else if c.toNat < 32 then none
    else (parseStringBody rest).map fun p => (c :: p.1, p.2)

/-- The digit run of a JSON integer after an optional sign: one or more
digits, no redundant leading zero, and no fraction or exponent continuation
(floating-point numbers are outside the model). -/
def parseNumTail (input : List Char) : Option (Nat × List Char) :=
  let ds := input.takeWhile Char.isDigit
  let rest := input.dropWhile Char.isDigit
  if ds.isEmpty then none
  else if 1 < ds.length && ds.head? == some '0' then none
  else
    match rest with
    | [] => some (decimalValue ds, [])
    | r :: _ => if r = '.' || r = 'e' || r = 'E' then none else some (decimalValue ds, rest)

/-- A JSON number within the integer model: an optional minus sign and a
digit run. -/
def parseNumber (input : List Char) : Option (Int × List Char) :=
  match input with
  | [] => none
  | c :: rest =>
    if c = '-' then (parseNumTail rest).map fun p => (-(p.1 : Int), p.2)
    else (parseNumTail input).map fun p => ((p.1 : Int), p.2)

/-- Consume an expected literal tail, as in the keywords null, true, false. -/
def expectTail : List Char → List Char → Option (List Char)
  | [], input => some input
  | _ :: _, [] => none
  | c :: cs, d :: input => if d = c then expectTail cs input else none

mutual

/-- One JSON value at the head of the input (leading whitespace already
skipped), and the rest of the input directly after it. -/
def parseVal : Nat → List Char → Option (Value × List Char)
  | 0, _ => none
  | _ + 1, [] => none
  | fuel + 1, c :: input =>
    if c = 'n' then (expectTail ['u', 'l', 'l'] input).map fun r => (.null, r)
    else if c = 't' then (expectTail ['r', 'u', 'e'] input).map fun r => (.bool true, r)
    else if c = 'f' then (expectTail ['a', 'l', 's', 'e'] input).map fun r => (.bool false, r)
    else if c = '"' then (parseStringBody input).map fun p => (.str p.1, p.2)
    else if c = '[' then
      match skipWs input with
      | [] => none
      | d :: r =>
        if d = ']' then some (.arr [], r)
        else (parseElems fuel (d :: r)).map fun p => (.arr p.1, p.2)
    else if c = '\x7b' then
      match skipWs input with
      | [] => none
      | d :: r =>
        if d = '\x7d' then some (.obj [], r)
        else (parseMembers fuel (d :: r)).map fun p => (.obj p.1, p.2)
    else if c = '-' || c.isDigit then
      (parseNumber (c :: input)).map fun p => (.num p.1, p.2)
    else none

/-- The elements of a non-empty array, up to and including the closing
bracket. -/
def parseElems : Nat → List Char → Option (List Value × List Char)
  | 0, _ => none
  | fuel + 1, input =>
    match parseVal fuel input with
    | none => none
    | some (v, r) =>
      match skipWs r with
      | [] => none
      | d :: r2 =>
        if d = ',' then
          match parseElems fuel (skipWs r2) with
          | none => none
          | some (vs, r3) => some (v :: vs, r3)
        else if d = ']' then some ([v], r2)
        else none

/-- The entries of a non-empty object, up to and including the closing
brace. -/
def parseMembers : Nat → List Char → Option (List (List Char × Value) × List Char)
  | 0, _ => none
  | fuel + 1, input =>
    match input with
    | [] => none
    | c :: r0 =>
      if c = '"' then
        match parseStringBody r0 with
        | none => none
        | some (k, r1) =>
          match skipWs r1 with
          | [] => none
          | d :: r2 =>
            if d = ':' then
              match parseVal fuel (skipWs r2) with
              | none => none
              | some (v, r3) =>
                match skipWs r3 with
                | [] => none
                | e :: r4 =>
                  if e = ',' then
                    match parseMembers fuel (skipWs r4) with
                    | none => none
                    | some (kvs, r5) => some ((k, v) :: kvs, r5)
                  else if e = '\x7d' then some ([(k, v)], r4)
                  else none
            else none
      else none

end

/-- Strict JSON parsing of a whole document: whitespace, one value, then
only whitespace to the end. One plus the input length exceeds the nesting
depth of any value the input can denote, so it is enough fuel. -/
def parseStrict (s : List Char) : Option Value :=
  match parseVal (s.length + 1) (skipWs s) with
  | some (v, rest) => if (skipWs rest).isEmpty then some v else none
  | none => none

/-! ## Fuel accounting for the round-trip proof -/

mutual

/-- Fuel sufficient for parseVal to read this value back. -/
def fuelOfVal : Value → Nat
  | .arr xs => fuelOfItems xs + 1
  | .obj es => fuelOfEntries es + 1
  | _ => 1
termination_by v => sizeOf v
decreasing_by all_goals (simp; try omega)

/-- Fuel sufficient for parseElems to read these items back. -/
def fuelOfItems : List Value → Nat
  | [] => 0
  | x :: xs => max (fuelOfVal x) (fuelOfItems xs) + 1
termination_by xs => sizeOf xs
decreasing_by all_goals (simp; try omega)

/-- Fuel sufficient for parseMembers to read these entries back. -/
def fuelOfEntries : List (List Char × Value) → Nat
  | [] => 0
  | (_, v) :: es => max (fuelOfVal v) (fuelOfEntries es) + 1
termination_by es => sizeOf es
decreasing_by all_goals (simp; try omega)

end

/-- A continuation in front of which a serialized integer stops: empty, or
headed by a character that neither extends the digit run nor begins a
fraction or exponent. -/
def numBoundary : List Char → Bool
  | [] => true
  | c :: _ => !(c.isDigit || c = '.' || c = 'e' || c = 'E')

/-! ## Lemmas: splitting a segment at the first opening bracket -/

theorem splitOnceChar_none (c : Char) :
    ∀ l : List Char, containsChar l c = false → splitOnceChar c l = none := by
  intro l
  induction l with
  | nil => intro _; rfl
  | cons x xs ih =>
    intro h
    simp only [containsChar, List.any_cons, Bool.or_eq_false_iff] at h
    obtain ⟨h1, h2⟩ := h
    have hx : ¬ x = c := by simpa using h1
    rw [splitOnceChar, if_neg hx, ih (by simpa [containsChar] using h2)]

theorem splitOnceChar_of_contains (c : Char) :
    ∀ l : List Char, containsChar l c = true →
      ∃ p : List Char × List Char, splitOnceChar c l = some p := by
  intro l
  induction l with
  | nil => intro h; simp [containsChar] at h
  | cons x xs ih =>
    intro h
    by_cases hx : x = c
    · exact ⟨([], xs), by rw [splitOnceChar, if_pos hx]⟩
    · have h2 : containsChar xs c = true := by
        simpa [containsChar, hx] using h
      obtain ⟨⟨a, b⟩, hp⟩ := ih h2
      exact ⟨(x :: a, b), by rw [splitOnceChar, if_neg hx, hp]⟩

theorem splitOnceChar_some (c : Char) :
    ∀ l a b : List Char, splitOnceChar c l = some (a, b) →
      containsChar l c = true ∧ a = l.takeWhile (fun x => x != c) ∧
        b = (l.dropWhile (fun x => x != c)).drop 1 := by
  intro l
  induction l with
  | nil => intro a b h; simp [splitOnceChar] at h
  | cons x xs ih =>
    intro a b h
    by_cases hx : x = c
    · subst hx
      rw [splitOnceChar, if_pos rfl] at h
      obtain ⟨rfl, rfl⟩ : [] = a ∧ xs = b := by simpa using h
      refine ⟨by simp [containsChar], ?_, ?_⟩
      · simp [List.takeWhile_cons]
      · simp [List.dropWhile_cons]
    · rw [splitOnceChar, if_neg hx] at h
      cases hsp : splitOnceChar c xs with
      | none => rw [hsp] at h; simp at h
      | some p =>
        obtain ⟨a', b'⟩ := p
        rw [hsp] at h
        obtain ⟨rfl, rfl⟩ : x :: a' = a ∧ b' = b := by simpa using h
        obtain ⟨hc, hta, htb⟩ := ih a' b' hsp
        refine ⟨by simp [containsChar] at hc ⊢; exact Or.inr hc, ?_, ?_⟩
        · simp [List.takeWhile_cons, hx, hta]
        · simp [List.dropWhile_cons, hx, htb]

/-! ## C1: the resolver follows the spec algorithm -/

theorem specSegStep_of_split_some (cur : Value) (seg name rest : List Char)
    (h : splitOnceChar '[' seg = some (name, rest)) :
    specSegStep cur seg = bracketStep cur name rest := by
  obtain ⟨hc, ha, hb⟩ := splitOnceChar_some '[' seg name rest h
  rw [specSegStep, if_pos hc, bracketStep, ← ha, ← hb]
  congr 1
  funext cv
  by_cases he : endsWithChar ']' rest
  · simp only [if_pos he]
    cases parseUsize rest.dropLast <;> rfl
  · simp only [if_neg he]

theorem specSegStep_of_split_none (cur : Value) (seg : List Char)
    (h : splitOnceChar '[' seg = none) : specSegStep cur seg = getField cur seg := by
  have hc : containsChar seg '[' = false := by
    by_contra hcc
    obtain ⟨p, hp⟩ := splitOnceChar_of_contains '[' seg (by
      cases hcv : containsChar seg '[' with
      | true => rfl
      | false => exact absurd hcv hcc)
    rw [h] at hp
    exact Option.noConfusion hp
  rw [specSegStep, if_neg (by simp [hc])]

theorem resolveSegs_eq_spec (segs : List (List Char)) : ∀ cur : Value,
    resolveSegs cur segs =
      segs.foldlM (fun cv seg => if seg.isEmpty then none else specSegStep cv seg) cur := by
  induction segs with
  | nil => intro cur; rfl
  | cons seg segs ih =>
    intro cur
    rw [resolveSegs, List.foldlM_cons]
    by_cases he : seg.isEmpty
    · simp [he]
    · simp only [if_neg he]
      cases hsp : splitOnceChar '[' seg with
      | some p =>
        obtain ⟨name, rest⟩ := p
        rw [specSegStep_of_split_some cur seg name rest hsp]
        show (bracketStep cur name rest).bind (fun cur2 => resolveSegs cur2 segs) = _
        cases hb2 : bracketStep cur name rest with
        | none => rfl
        | some cur2 =>
          show resolveSegs cur2 segs = _
          exact ih cur2
      | none =>
        rw [specSegStep_of_split_none cur seg hsp]
        show (getField cur seg).bind (fun cur2 => resolveSegs cur2 segs) = _
        cases hg : getField cur seg with
        | none => rfl
        | some cur2 =>
          show resolveSegs cur2 segs = _
          exact ih cur2

/-- C1: for every JSON value and path expression, get_by_path resolves the
path by the spec algorithm — split on dots, empty segment means not-found,
a bracketed segment does an optional field lookup on the non-empty prefix
followed by a close-bracket check, a non-negative integer parse of the
interior and an array indexing, and a plain segment is an object-field
lookup; and resolving a.b[2] against the object mapping a to an object
mapping b to the array 1, 2, 3 yields 3. -/
theorem C1_path_resolution_follows_spec :
    (∀ (v : Value) (p : List Char), get_by_path v p = resolveSpec v p) ∧
      get_by_path
        (.obj [("a".toList, .obj [("b".toList, .arr [.num 1, .num 2, .num 3])])])
        ("a.b[2]".toList) = some (.num 3) := by
  constructor
  · intro v p
    rw [get_by_path, resolveSpec]
    exact resolveSegs_eq_spec _ v
  · rfl

/-! ## C3: the resolver is total — the checked model never faults -/

theorem bracketStepChecked_ok (cur : Value) (name rest : List Char) :
    bracketStepChecked cur name rest = .ok (bracketStep cur name rest) := by
  rw [bracketStepChecked, bracketStep]
  cases hf : (if name.isEmpty then some cur else getField cur name) with
  | none => rfl
  | some cur2 =>
    simp only [Option.some_bind]
    by_cases he : endsWithChar ']' rest
    · simp only [if_pos he]
      have hlen : 1 ≤ rest.length := by
        rw [endsWithChar] at he
        cases rest with
        | nil => simp at he
        | cons a l => simp
      simp only [checkedSub, checkedTake, hlen, if_true, Nat.sub_le,
        ← List.dropLast_eq_take]
      cases parseUsize rest.dropLast <;> rfl
    · simp only [if_neg he]

theorem resolveSegsChecked_ok (segs : List (List Char)) : ∀ cur : Value,
    resolveSegsChecked cur segs = .ok (resolveSegs cur segs) := by
  induction segs with
  | nil => intro cur; rfl
  | cons seg segs ih =>
    intro cur
    rw [resolveSegsChecked, resolveSegs]
    by_cases he : seg.isEmpty
    · simp only [if_pos he]
    · simp only [if_neg he]
      cases hsp : splitOnceChar '[' seg with
      | some p =>
        obtain ⟨name, rest⟩ := p
        show (match bracketStepChecked cur name rest with
              | Except.error e => Except.error e
              | Except.ok none => Except.ok none
              | Except.ok (some cur2) => resolveSegsChecked cur2 segs) =
          Except.ok ((bracketStep cur name rest).bind fun cur2 => resolveSegs cur2 segs)
        rw [bracketStepChecked_ok cur name rest]
        cases hb2 : bracketStep cur name rest with
        | none => rfl
        | some cur2 => exact ih cur2
      | none =>
        show (match getField cur seg with
              | none => Except.ok none
              | some cur2 => resolveSegsChecked cur2 segs) =
          Except.ok ((getField cur seg).bind fun cur2 => resolveSegs cur2 segs)
        cases hg : getField cur seg with
        | none => rfl
        | some cur2 => exact ih cur2

/-- C3: path resolution is total. In the model where the partial Rust slice
primitives of the bracket branch are checked (an error models a panic),
get_by_path never faults: on every value and every path string, including
malformed ones, it returns ok of exactly the Option result of get_by_path —
a value reference or not-found. -/
theorem C3_path_resolution_total (v : Value) (p : List Char) :
    get_by_pathChecked v p = .ok (get_by_path v p) := by
  rw [get_by_pathChecked, get_by_path]
  exact resolveSegsChecked_ok _ v

/-! ## Lemmas: substring containment -/

theorem startsWithChars_nil (l : List Char) : startsWithChars l [] = true := by
  cases l <;> rfl

theorem startsWithChars_self_append (b t : List Char) :
    startsWithChars (b ++ t) b = true := by
  induction b with
  | nil => exact startsWithChars_nil t
  | cons x xs ih => simp [startsWithChars, ih]

theorem startsWithChars_mono (needle : List Char) :
    ∀ s t : List Char, startsWithChars s needle = true →
      startsWithChars (s ++ t) needle = true := by
  induction needle with
  | nil => intro s t _; exact startsWithChars_nil (s ++ t)
  | cons b bs ih =>
    intro s t h
    cases s with
    | nil => simp [startsWithChars] at h
    | cons a as' =>
      simp only [startsWithChars, Bool.and_eq_true] at h
      simp only [List.cons_append, startsWithChars, Bool.and_eq_true]
      exact ⟨h.1, ih as' t h.2⟩

theorem containsSub_head (c : Char) (t needle : List Char) :
    containsSub (c :: t) needle =
      (startsWithChars (c :: t) needle || containsSub t needle) := rfl

theorem containsSub_starts (hay needle : List Char)
    (h : startsWithChars hay needle = true) : containsSub hay needle = true := by
  cases hay with
  | nil => exact h
  | cons c t => rw [containsSub_head, h, Bool.true_or]

theorem containsSub_of_parts (mid : List Char) :
    ∀ pre post : List Char, containsSub (pre ++ (mid ++ post)) mid = true := by
  intro pre
  induction pre with
  | nil =>
    intro post
    exact containsSub_starts _ _ (startsWithChars_self_append mid post)
  | cons x xs ih =>
    intro post
    rw [List.cons_append, containsSub_head, ih post, Bool.or_true]

theorem containsSub_of_decomp (hay pre mid post : List Char)
    (h : hay = pre ++ (mid ++ post)) : containsSub hay mid = true := by
  rw [h]; exact containsSub_of_parts mid pre post

theorem containsSub_append_of_left (needle : List Char) :
    ∀ s t : List Char, containsSub s needle = true →
      containsSub (s ++ t) needle = true := by
  intro s
  induction s with
  | nil =>
    intro t h
    exact containsSub_starts _ _ (startsWithChars_mono needle [] t h)
  | cons x xs ih =>
    intro t h
    rw [containsSub_head] at h
    rw [List.cons_append, containsSub_head]
    rcases Bool.or_eq_true_iff.mp h with h1 | h2
    · have h3 := startsWithChars_mono needle (x :: xs) t h1
      rw [List.cons_append] at h3
      rw [h3, Bool.true_or]
    · rw [ih t h2, Bool.or_true]

theorem containsSub_append_of_right (needle : List Char) :
    ∀ s t : List Char, containsSub t needle = true →
      containsSub (s ++ t) needle = true := by
  intro s
  induction s with
  | nil => intro t h; exact h
  | cons x xs ih =>
    intro t h
    rw [List.cons_append, containsSub_head, ih t h, Bool.or_true]

/-! ## C2: strict first, relaxed fallback, both errors reported -/

/-- C2: parse_json returns the strict value immediately when the strict
grammar succeeds, whatever the relaxed grammar and mode flag (the relaxed
grammar is not consulted); on strict failure with relaxed mode enabled it
returns a relaxed success; and when both grammars fail its error message
contains both error texts. -/
theorem C2_parse_json_strict_first_relaxed_fallback :
    (∀ (strict relaxed : List Char → Except (List Char) Value) (s : List Char)
        (b : Bool) (v : Value), strict s = .ok v →
        parse_json strict relaxed s b = .ok v) ∧
    (∀ (strict relaxed : List Char → Except (List Char) Value) (s e : List Char)
        (v : Value), strict s = .error e → relaxed s = .ok v →
        parse_json strict relaxed s true = .ok v) ∧
    (∀ (strict relaxed : List Char → Except (List Char) Value) (s e1 e2 : List Char),
        strict s = .error e1 → relaxed s = .error e2 →
        ∃ m, parse_json strict relaxed s true = .error m ∧
          containsSub m e1 = true ∧ containsSub m e2 = true) := by
  refine ⟨?_, ?_, ?_⟩
  · intro strict relaxed s b v h
    rw [parse_json, h]
  · intro strict relaxed s e v h1 h2
    simp only [parse_json, h1, h2, if_true]
  · intro strict relaxed s e1 e2 h1 h2
    refine ⟨"Failed to parse as JSON or JSON5\n\nStrict JSON error: ".toList ++ e1
        ++ "\nJSON5 error: ".toList ++ e2,
      by simp only [parse_json, h1, h2, if_true], ?_, ?_⟩
    · exact containsSub_of_decomp _
        ("Failed to parse as JSON or JSON5\n\nStrict JSON error: ".toList) e1
        ("\nJSON5 error: ".toList ++ e2) (by simp [List.append_assoc])
    · exact containsSub_of_decomp _
        ("Failed to parse as JSON or JSON5\n\nStrict JSON error: ".toList ++ e1
          ++ "\nJSON5 error: ".toList) e2 [] (by simp [List.append_assoc])

/-- Closed instance of C2 at concrete toy grammars, discharging each
hypothesis by computation. -/
theorem C2_parse_json_strict_first_relaxed_fallback_witness :
    parse_json (fun _ => .ok .null) (fun _ => .error ['y']) ['z'] false = .ok .null ∧
    parse_json (fun _ => .error ['x']) (fun _ => .ok (.bool true)) ['z'] true
      = .ok (.bool true) ∧
    ∃ m, parse_json (fun _ => .error ['x']) (fun _ => .error ['y']) ['z'] true = .error m ∧
      containsSub m ['x'] = true ∧ containsSub m ['y'] = true :=
  ⟨C2_parse_json_strict_first_relaxed_fallback.1 _ _ _ _ _ rfl,
    C2_parse_json_strict_first_relaxed_fallback.2.1 _ _ _ _ _ rfl rfl,
    C2_parse_json_strict_first_relaxed_fallback.2.2 _ _ _ _ _ rfl rfl⟩

/-! ## C5: the heuristic hints of the diagnostic message

The source selects at most one hint with an else-if chain, so an input
matching several pattern checks gets only the first matching hint — the
claim that each matching hint is included fails. -/

set_option maxRecDepth 40000 in
/-- C5 counterexample: the input consisting of a single-quoted object with a
single-quoted value matches both the quote-adjacent-brace check and the
single-quoted-value check, yet the ParseError message of parse_json (strict
failure, relaxed mode off) omits the single-quoted-value hint, so not every
matching heuristic hint is included. -/
theorem C5_counterexample :
    containsSub ("\x27\x7b\"a\": \x27x\x27\x7d\x27".toList) (": \x27".toList) = true ∧
    parse_json (fun _ => .error ("expected value".toList)) (fun _ => .error [])
        ("\x27\x7b\"a\": \x27x\x27\x7d\x27".toList) false =
      .error (analyze_json_error ("\x27\x7b\"a\": \x27x\x27\x7d\x27".toList)
        ("expected value".toList)) ∧
    containsSub (analyze_json_error ("\x27\x7b\"a\": \x27x\x27\x7d\x27".toList)
        ("expected value".toList)) hintSingleQuotedValues = false := by
  refine ⟨by decide, rfl, by decide⟩

set_option maxRecDepth 40000 in
/-- C5 amended: on strict failure with relaxed mode disabled, the ParseError
message includes the first matching hint in the priority order — quote
adjacent to a brace, then single-quoted values, then alphabetic input with
no double quote — while later matching hints may be omitted; the message
also includes the usage examples and ends with the original strict-parser
error text appended verbatim. -/
theorem C5_first_matching_hint_and_examples
    (strict relaxed : List Char → Except (List Char) Value)
    (input e : List Char) (hs : strict input = .error e) :
    parse_json strict relaxed input false = .error (analyze_json_error input e) ∧
    ((containsSub input ("\x27\x7b".toList) || containsSub input ("\x7d\x27".toList)) = true →
      containsSub (analyze_json_error input e) hintQuotesAroundJson = true) ∧
    ((containsSub input ("\x27\x7b".toList) || containsSub input ("\x7d\x27".toList)) = false →
      containsSub input (": \x27".toList) = true →
      containsSub (analyze_json_error input e) hintSingleQuotedValues = true) ∧
    ((containsSub input ("\x27\x7b".toList) || containsSub input ("\x7d\x27".toList)) = false →
      containsSub input (": \x27".toList) = false →
      (input.any rustIsAlphabetic && !(containsChar input '"')) = true →
      containsSub (analyze_json_error input e) hintUnquotedKeys = true) ∧
    containsSub (analyze_json_error input e) ("--json5".toList) = true ∧
    containsSub (analyze_json_error input e) ("PowerShell".toList) = true ∧
    containsSub (analyze_json_error input e) ("--file".toList) = true ∧
    analyze_json_error input e =
      ("Invalid JSON format".toList
        ++ (if (containsSub input ("\x27\x7b".toList)
                || containsSub input ("\x7d\x27".toList)) then hintQuotesAroundJson
            else if containsSub input (": \x27".toList) then hintSingleQuotedValues
            else if input.any rustIsAlphabetic && !(containsChar input '"') then
              hintUnquotedKeys
            else [])
        ++ usageExamples)
        ++ ("\n\nOriginal error: ".toList ++ e) := by
  refine ⟨by simp [parse_json, hs], ?_, ?_, ?_, ?_, ?_, ?_, ?_⟩
  · intro hp1
    rw [analyze_json_error, if_pos hp1]
    exact containsSub_of_decomp _ ("Invalid JSON format".toList) hintQuotesAroundJson
      (usageExamples ++ ("\n\nOriginal error: ".toList ++ e)) (by simp [List.append_assoc])
  · intro hp1 hp2
    rw [analyze_json_error, if_neg (by rw [hp1]; simp), if_pos hp2]
    exact containsSub_of_decomp _ ("Invalid JSON format".toList) hintSingleQuotedValues
      (usageExamples ++ ("\n\nOriginal error: ".toList ++ e)) (by simp [List.append_assoc])
  · intro hp1 hp2 hp3
    rw [analyze_json_error, if_neg (by rw [hp1]; simp), if_neg (by rw [hp2]; simp), if_pos hp3]
    exact containsSub_of_decomp _ ("Invalid JSON format".toList) hintUnquotedKeys
      (usageExamples ++ ("\n\nOriginal error: ".toList ++ e)) (by simp [List.append_assoc])
  · rw [analyze_json_error]
    exact containsSub_append_of_left _ _ e (containsSub_append_of_left _ _ _
      (containsSub_append_of_right _ _ usageExamples (by decide)))
  · rw [analyze_json_error]
    exact containsSub_append_of_left _ _ e (containsSub_append_of_left _ _ _
      (containsSub_append_of_right _ _ usageExamples (by decide)))
  · rw [analyze_json_error]
    exact containsSub_append_of_left _ _ e (containsSub_append_of_left _ _ _
      (containsSub_append_of_right _ _ usageExamples (by decide)))
  · rw [analyze_json_error]
    simp [List.append_assoc]

set_option maxRecDepth 40000 in
/-- Closed instance of the amended C5 at a concrete failing strict grammar,
discharging each hypothesis by computation. -/
theorem C5_first_matching_hint_and_examples_witness :
    parse_json (fun _ => .error ['x']) (fun _ => .error []) ("\x7ba:1\x7d".toList) false
      = .error (analyze_json_error ("\x7ba:1\x7d".toList) ['x']) ∧
    containsSub (analyze_json_error ("\x7ba:1\x7d".toList) ['x']) hintUnquotedKeys = true := by
  have h := C5_first_matching_hint_and_examples (fun _ => .error ['x']) (fun _ => .error [])
    ("\x7ba:1\x7d".toList) ['x'] rfl
  exact ⟨h.1, h.2.2.2.1 (by decide) (by decide) (by decide)⟩

/-! ## C6: header parsing before any network activity -/

theorem splitOnceChar_decomp (c : Char) :
    ∀ l a b : List Char, splitOnceChar c l = some (a, b) →
      l = a ++ c :: b ∧ containsChar a c = false := by
  intro l
  induction l with
  | nil => intro a b h; simp [splitOnceChar] at h
  | cons x xs ih =>
    intro a b h
    by_cases hx : x = c
    · subst hx
      rw [splitOnceChar, if_pos rfl] at h
      obtain ⟨rfl, rfl⟩ : [] = a ∧ xs = b := by simpa using h
      exact ⟨rfl, rfl⟩
    · rw [splitOnceChar, if_neg hx] at h
      cases hsp : splitOnceChar c xs with
      | none => rw [hsp] at h; simp at h
      | some p =>
        obtain ⟨a2, b2⟩ := p
        rw [hsp] at h
        obtain ⟨rfl, rfl⟩ : x :: a2 = a ∧ b2 = b := by simpa using h
        obtain ⟨hdec, hna⟩ := ih a2 b2 hsp
        constructor
        · rw [List.cons_append, ← hdec]
        · simp [containsChar, hx]
          simpa [containsChar] using hna

theorem headers_foldlM_error (pn pv : List Char → Option (List Char)) :
    ∀ (items : List (List Char)) (acc : List (List Char × List Char)) (h : List Char),
      h ∈ items → (∃ eh, parseHeaderItem pn pv h = .error eh) →
      ∃ e h2,
        items.foldlM
            (fun map hh => (parseHeaderItem pn pv hh).map fun kv => map ++ [kv]) acc
          = .error e ∧ h2 ∈ items ∧ parseHeaderItem pn pv h2 = .error e := by
  intro items
  induction items with
  | nil => intro acc h hmem; simp at hmem
  | cons i rest ih =>
    intro acc h hmem hbad
    cases hpi : parseHeaderItem pn pv i with
    | error e0 =>
      refine ⟨e0, i, ?_, List.mem_cons_self i rest, hpi⟩
      rw [List.foldlM_cons, hpi]
      rfl
    | ok kv =>
      have hmem2 : h ∈ rest := by
        rcases List.mem_cons.mp hmem with rfl | hr
        · obtain ⟨eh, heh⟩ := hbad
          rw [hpi] at heh
          exact absurd heh (by simp)
        · exact hr
      obtain ⟨e, h2, heq, h2mem, h2err⟩ := ih (acc ++ [kv]) h hmem2 hbad
      refine ⟨e, h2, ?_, List.mem_cons_of_mem i h2mem, h2err⟩
      rw [List.foldlM_cons, hpi]
      exact heq

theorem headers_foldlM_ok (pn pv : List Char → Option (List Char)) :
    ∀ (items : List (List Char)) (acc m : List (List Char × List Char)),
      items.foldlM
          (fun map hh => (parseHeaderItem pn pv hh).map fun kv => map ++ [kv]) acc
        = .ok m →
      ∃ ms, m = acc ++ ms ∧ ms.length = items.length ∧
        ∀ i (hi : i < items.length) (hm : i < ms.length),
          parseHeaderItem pn pv (items.get ⟨i, hi⟩) = .ok (ms.get ⟨i, hm⟩) := by
  intro items
  induction items with
  | nil =>
    intro acc m h
    obtain rfl : acc = m := by
      simpa [List.foldlM_nil, pure, Except.pure] using h
    exact ⟨[], by simp, by simp, fun i hi => absurd hi (by simp)⟩
  | cons i rest ih =>
    intro acc m h
    cases hpi : parseHeaderItem pn pv i with
    | error e0 =>
      rw [List.foldlM_cons, hpi] at h
      exact Except.noConfusion h
    | ok kv =>
      rw [List.foldlM_cons, hpi] at h
      obtain ⟨ms2, rfl, hlen, hidx⟩ := ih (acc ++ [kv]) m h
      refine ⟨kv :: ms2, by simp, by simp [hlen], ?_⟩
      intro j hj hmj
      cases j with
      | zero => exact hpi
      | succ n => exact hidx n (by simpa using hj) (by simpa using hmj)

/-- C6: a header entry without a colon is rejected with an error naming that
entry; any failing header entry makes the whole HTTP get fail before the
request is handed to the transport (no network activity); a well-formed
entry is split at its first colon only; and on success every entry
contributes its own key-value pair in order, so duplicate keys append
rather than overwrite. -/
theorem C6_headers_validated_before_send :
    (∀ (pn pv : List Char → Option (List Char)) (h : List Char),
        splitOnceChar ':' h = none →
        parseHeaderItem pn pv h = .error ("Header must be key:value, got: ".toList ++ h) ∧
        containsSub ("Header must be key:value, got: ".toList ++ h) h = true) ∧
    (∀ (pu pn pv : List Char → Option (List Char))
        (tr : List (List Char × List Char) → Except (List Char) HttpResponse)
        (url : List Char) (hs : List (List Char)) (pretty : Bool) (u h : List Char),
        pu url = some u → h ∈ hs → (∃ eh, parseHeaderItem pn pv h = .error eh) →
        ∃ e h2, http_get_run pu pn pv tr url hs pretty = (false, .error e) ∧
          h2 ∈ hs ∧ parseHeaderItem pn pv h2 = .error e) ∧
    (∀ h k v : List Char, splitOnceChar ':' h = some (k, v) →
        h = k ++ ':' :: v ∧ containsChar k ':' = false) ∧
    (∀ (pn pv : List Char → Option (List Char)) (items : List (List Char))
        (m : List (List Char × List Char)), parse_headers pn pv items = .ok m →
        m.length = items.length ∧ ∀ i (hi : i < items.length) (hm : i < m.length),
          parseHeaderItem pn pv (items.get ⟨i, hi⟩) = .ok (m.get ⟨i, hm⟩)) := by
  refine ⟨?_, ?_, ?_, ?_⟩
  · intro pn pv h hsp
    constructor
    · rw [parseHeaderItem, hsp]
    · exact containsSub_of_decomp _ ("Header must be key:value, got: ".toList) h []
        (by simp)
  · intro pu pn pv tr url hs pretty u h hpu hmem hbad
    obtain ⟨e, h2, heq, h2mem, h2err⟩ := headers_foldlM_error pn pv hs [] h hmem hbad
    refine ⟨e, h2, ?_, h2mem, h2err⟩
    rw [http_get_run, hpu, parse_headers, heq]
  · intro h k v hsp
    exact splitOnceChar_decomp ':' h k v hsp
  · intro pn pv items m hok
    rw [parse_headers] at hok
    obtain ⟨ms, rfl, hlen, hidx⟩ := headers_foldlM_ok pn pv items [] m hok
    exact ⟨hlen, hidx⟩

/-- Closed instance of C6: a colonless header aborts the HTTP get before the
transport with an error naming it; a three-part string splits at the first
colon; and two entries with the same key both survive parsing. -/
theorem C6_headers_validated_before_send_witness :
    (∃ e h2, http_get_run (fun u => some u) (fun s => some s) (fun s => some s)
        (fun _ => .error []) ("http://x".toList) ["abc".toList] false
          = (false, .error e) ∧
        h2 ∈ [("abc".toList)] ∧
        parseHeaderItem (fun s => some s) (fun s => some s) h2 = .error e) ∧
    ("a:b:c".toList = "a".toList ++ ':' :: "b:c".toList ∧
      containsChar ("a".toList) ':' = false) ∧
    ([(("a".toList : List Char), ("1".toList : List Char)),
        ("a".toList, "2".toList)].length = ["a:1".toList, "a:2".toList].length) := by
  refine ⟨?_, ?_, ?_⟩
  · exact C6_headers_validated_before_send.2.1 _ _ _ _ _ _ false _ ("abc".toList) rfl
      (by simp) ⟨_, rfl⟩
  · exact C6_headers_validated_before_send.2.2.1 ("a:b:c".toList) _ _ rfl
  · exact (C6_headers_validated_before_send.2.2.2 (fun s => some s) (fun s => some s)
      ["a:1".toList, "a:2".toList] _ rfl).1

/-! ## C7: pretty JSON rendering of the response body -/

/-- C7: on the no-save path, when pretty mode is on and the content-type
contains application/json the body is parsed as JSON — a success is
pretty-printed and a failure is an error annotated with the observed status;
with any other content-type, or with pretty mode off, the body text is
printed without parsing; and the no-save run hands the response to this
rendering after a successful send. -/
theorem C7_pretty_json_or_plain_text :
    (∀ (st ct bt : List Char) (v : Value),
        containsSub ct ("application/json".toList) = true →
        renderResponse true ⟨st, some ct, .ok v, bt⟩ = .ok (.jsonPretty v)) ∧
    (∀ (st ct bt e : List Char),
        containsSub ct ("application/json".toList) = true →
        ∃ m, renderResponse true ⟨st, some ct, .error e, bt⟩ = .error m ∧
          containsSub m st = true ∧
          m = "Failed to parse JSON (status ".toList ++ st ++ [')']) ∧
    (∀ (pretty : Bool) (resp : HttpResponse),
        pretty = false ∨
          containsSub (resp.contentType.getD []) ("application/json".toList) = false →
        renderResponse pretty resp = .ok (.plainText resp.bodyText)) ∧
    (∀ (pu pn pv : List Char → Option (List Char)) (url u : List Char)
        (resp : HttpResponse) (pretty : Bool), pu url = some u →
        http_get_run pu pn pv (fun _ => .ok resp) url [] pretty =
          (true, renderResponse pretty resp)) := by
  refine ⟨?_, ?_, ?_, ?_⟩
  · intro st ct bt v hct
    rw [renderResponse]
    simp only [Option.getD_some, hct, Bool.and_true, Bool.true_and, if_true]
  · intro st ct bt e hct
    refine ⟨_, ?_, ?_, rfl⟩
    · rw [renderResponse]
      simp only [Option.getD_some, hct, Bool.and_true, Bool.true_and, if_true]
    · exact containsSub_of_decomp _ ("Failed to parse JSON (status ".toList) st [')']
        (by simp)
  · intro pretty resp hcase
    rw [renderResponse]
    rcases hcase with rfl | hct
    · rw [if_neg (by simp)]
    · rw [if_neg (by
        intro hcontra
        rw [Bool.and_eq_true] at hcontra
        have h2 := hcontra.2
        rw [hct] at h2
        exact Bool.false_ne_true h2)]
  · intro pu pn pv url u resp pretty hpu
    rw [http_get_run, hpu]
    rfl

/-- Closed instance of C7 at a concrete response, discharging each
hypothesis by computation. -/
theorem C7_pretty_json_or_plain_text_witness :
    renderResponse true
        ⟨"200 OK".toList, some ("application/json".toList), .ok .null, "null".toList⟩
      = .ok (.jsonPretty .null) ∧
    (∃ m, renderResponse true
        ⟨"200 OK".toList, some ("application/json".toList), .error ['x'], [] ⟩
      = .error m ∧ containsSub m ("200 OK".toList) = true ∧
        m = "Failed to parse JSON (status ".toList ++ "200 OK".toList ++ [')']) ∧
    renderResponse false
        ⟨"200 OK".toList, some ("text/plain".toList), .error ['x'], "hi".toList⟩
      = .ok (.plainText ("hi".toList)) := by
  refine ⟨?_, ?_, ?_⟩
  · exact C7_pretty_json_or_plain_text.1 _ _ _ _ (by decide)
  · exact C7_pretty_json_or_plain_text.2.1 _ _ _ _ (by decide)
  · exact C7_pretty_json_or_plain_text.2.2.1 false _ (Or.inl rfl)

/-! ## C8, C9, C10: the output contract of json select -/

/-- C8: a not-found path resolution is a success — run returns ok (the
process exits 0), printing the title and then the fixed sentinel to
standard output; not-found is never reported as an error. -/
theorem C8_not_found_is_success
    (strict relaxed : List Char → Except (List Char) Value)
    (raw path : List Char) (json : Value) (use_json5 : Bool)
    (hparse : parse_json strict relaxed (rustTrim raw) use_json5 = .ok json)
    (hpath : get_by_path json path = none) :
    json_select_run strict relaxed (.ok raw) use_json5 path =
      (.ok (), [titleLine, notFoundSentinel]) := by
  rw [json_select_run]
  show (match parse_json strict relaxed (rustTrim raw) use_json5 with
        | .error e => ((.error e : Except (List Char) Unit), [titleLine])
        | .ok json =>
          match get_by_path json path with
          | some v => (.ok (), [titleLine] ++ [renderPretty v])
          | none => (.ok (), [titleLine] ++ [notFoundSentinel])) = _
  rw [hparse]
  show (match get_by_path json path with
        | some v => ((.ok () : Except (List Char) Unit), [titleLine] ++ [renderPretty v])
        | none => (.ok (), [titleLine] ++ [notFoundSentinel])) = _
  rw [hpath]
  rfl

/-- Closed instance of C8 at a concrete document and path, discharging each
hypothesis by computation. -/
theorem C8_not_found_is_success_witness :
    json_select_run (fun _ => .ok (.obj [])) (fun _ => .error []) (.ok ("x".toList))
        false ("a".toList) = (.ok (), [titleLine, notFoundSentinel]) :=
  C8_not_found_is_success _ _ _ _ (.obj []) false rfl rfl

/-- C9: the not-found sentinel is the literal text (null), which differs
from the rendering null of a successfully resolved JSON null — a found null
and a not-found path both return ok but print different text. -/
theorem C9_sentinel_differs_from_null
    (strict relaxed : List Char → Except (List Char) Value)
    (raw path : List Char) (json : Value) (use_json5 : Bool)
    (hparse : parse_json strict relaxed (rustTrim raw) use_json5 = .ok json) :
    (get_by_path json path = some .null →
      json_select_run strict relaxed (.ok raw) use_json5 path =
        (.ok (), [titleLine, "null".toList])) ∧
    (get_by_path json path = none →
      json_select_run strict relaxed (.ok raw) use_json5 path =
        (.ok (), [titleLine, notFoundSentinel])) ∧
    notFoundSentinel = "(null)".toList ∧
    "null".toList ≠ notFoundSentinel := by
  refine ⟨?_, ?_, rfl, by decide⟩
  · intro hpath
    rw [json_select_run]
    show (match parse_json strict relaxed (rustTrim raw) use_json5 with
          | .error e => ((.error e : Except (List Char) Unit), [titleLine])
          | .ok json =>
            match get_by_path json path with
            | some v => (.ok (), [titleLine] ++ [renderPretty v])
            | none => (.ok (), [titleLine] ++ [notFoundSentinel])) = _
    rw [hparse]
    show (match get_by_path json path with
          | some v => ((.ok () : Except (List Char) Unit), [titleLine] ++ [renderPretty v])
          | none => (.ok (), [titleLine] ++ [notFoundSentinel])) = _
    rw [hpath]
    have hnull : renderPretty Value.null = "null".toList := by
      rw [renderPretty, prettyVal]; rfl
    show ((Except.ok () : Except (List Char) Unit), [titleLine] ++ [renderPretty Value.null])
      = _
    rw [hnull]
    rfl
  · intro hpath
    rw [json_select_run]
    show (match parse_json strict relaxed (rustTrim raw) use_json5 with
          | .error e => ((.error e : Except (List Char) Unit), [titleLine])
          | .ok json =>
            match get_by_path json path with
            | some v => (.ok (), [titleLine] ++ [renderPretty v])
            | none => (.ok (), [titleLine] ++ [notFoundSentinel])) = _
    rw [hparse]
    show (match get_by_path json path with
          | some v => ((.ok () : Except (List Char) Unit), [titleLine] ++ [renderPretty v])
          | none => (.ok (), [titleLine] ++ [notFoundSentinel])) = _
    rw [hpath]
    rfl

/-- Closed instance of C9: a found null prints the token null, a not-found
path prints the sentinel, at one concrete document. -/
theorem C9_sentinel_differs_from_null_witness :
    (json_select_run (fun _ => .ok (.obj [("a".toList, .null)])) (fun _ => .error [])
        (.ok ("x".toList)) false ("a".toList) = (.ok (), [titleLine, "null".toList])) ∧
    (json_select_run (fun _ => .ok (.obj [("a".toList, .null)])) (fun _ => .error [])
        (.ok ("x".toList)) false ("b".toList) =
      (.ok (), [titleLine, notFoundSentinel])) ∧
    "null".toList ≠ notFoundSentinel := by
  have h1 := C9_sentinel_differs_from_null (fun _ => .ok (.obj [("a".toList, .null)]))
    (fun _ => .error []) ("x".toList) ("a".toList) (.obj [("a".toList, .null)]) false rfl
  have h2 := C9_sentinel_differs_from_null (fun _ => .ok (.obj [("a".toList, .null)]))
    (fun _ => .error []) ("x".toList) ("b".toList) (.obj [("a".toList, .null)]) false rfl
  exact ⟨h1.1 rfl, h2.2.1 rfl, h1.2.2.2⟩

/-- C10: every invocation of json select prints the title line JSON Select
first, before any resolved value or sentinel, so standard output never
consists solely of the resolution result. -/
theorem C10_title_printed_first :
    (∀ (strict relaxed : List Char → Except (List Char) Value)
        (input : Except (List Char) (List Char)) (use_json5 : Bool) (path : List Char),
      ∃ rest, (json_select_run strict relaxed input use_json5 path).2 =
        titleLine :: rest) ∧
    titleLine = "JSON Select".toList := by
  refine ⟨?_, rfl⟩
  intro strict relaxed input use_json5 path
  cases input with
  | error e => exact ⟨[], rfl⟩
  | ok raw =>
    rw [json_select_run]
    have key : ∀ r : Except (List Char) Value,
        ∃ rest,
          (match r with
            | .error e => ((.error e : Except (List Char) Unit), [titleLine])
            | .ok json =>
              match get_by_path json path with
              | some v => (.ok (), [titleLine] ++ [renderPretty v])
              | none => (.ok (), [titleLine] ++ [notFoundSentinel])).2
            = titleLine :: rest := by
      intro r
      cases r with
      | error e => exact ⟨[], rfl⟩
      | ok json =>
        show ∃ rest,
          (match get_by_path json path with
            | some v => ((.ok () : Except (List Char) Unit), [titleLine] ++ [renderPretty v])
            | none => (.ok (), [titleLine] ++ [notFoundSentinel])).2 = titleLine :: rest
        cases get_by_path json path with
        | some v => exact ⟨[renderPretty v], rfl⟩
        | none => exact ⟨[notFoundSentinel], rfl⟩
    exact key (parse_json strict relaxed (rustTrim raw) use_json5)

/-! ## C4: round-trip lemmas — digits and numbers -/

theorem digit_char_props : ∀ n : Nat, n < 10 →
    (digitChar n).isDigit = true ∧ digitVal (digitChar n) = n ∧
    (1 ≤ n → digitChar n ≠ '0') := by decide

theorem digit_not_special (c : Char) (h : c.isDigit = true) :
    isWsChar c = false ∧ c ≠ ']' ∧ c ≠ '\x7d' ∧ c ≠ 'n' ∧ c ≠ 't' ∧ c ≠ 'f' ∧
      c ≠ '"' ∧ c ≠ '[' ∧ c ≠ '\x7b' ∧ c ≠ '-' := by
  refine ⟨?_, ?_, ?_, ?_, ?_, ?_, ?_, ?_, ?_, ?_⟩
  · cases hw : isWsChar c
    · rfl
    · exfalso
      rw [isWsChar] at hw
      rcases (by simpa using hw : ((c = ' ' ∨ c = '\t') ∨ c = '\n') ∨ c = '\r') with
        ((h1 | h1) | h1) | h1 <;> (subst h1; exact absurd h (by decide))
  all_goals (intro h1; subst h1; exact absurd h (by decide))

theorem natChars_lt (n : Nat) (h : n < 10) : natChars n = [digitChar n] := by
  rw [natChars, if_pos h]

theorem natChars_ge (n : Nat) (h : 10 ≤ n) :
    natChars n = natChars (n / 10) ++ [digitChar (n % 10)] := by
  rw [natChars]
  rw [if_neg (by omega)]

theorem natChars_ne_nil : ∀ n : Nat, natChars n ≠ [] := by
  intro n
  by_cases h : n < 10
  · rw [natChars_lt n h]; simp
  · rw [natChars_ge n (by omega)]; simp

theorem natChars_all_digits : ∀ n : Nat, ∀ c ∈ natChars n, c.isDigit = true := by
  intro n
  induction n using Nat.strong_induction_on with
  | _ n ih =>
    by_cases h : n < 10
    · rw [natChars_lt n h]
      intro c hc
      rw [List.mem_singleton] at hc
      subst hc
      exact (digit_char_props n h).1
    · rw [natChars_ge n (by omega)]
      intro c hc
      rcases List.mem_append.mp hc with h1 | h1
      · exact ih (n / 10) (by omega) c h1
      · rw [List.mem_singleton] at h1
        subst h1
        exact (digit_char_props (n % 10) (by omega)).1

theorem decimalValue_append_digit (xs : List Char) (c : Char) :
    decimalValue (xs ++ [c]) = 10 * decimalValue xs + digitVal c := by
  rw [decimalValue, decimalValue, List.foldl_append]
  rfl

theorem decimalValue_natChars : ∀ n : Nat, decimalValue (natChars n) = n := by
  intro n
  induction n using Nat.strong_induction_on with
  | _ n ih =>
    by_cases h : n < 10
    · rw [natChars_lt n h]
      show 10 * 0 + digitVal (digitChar n) = n
      rw [(digit_char_props n h).2.1]
      omega
    · rw [natChars_ge n (by omega), decimalValue_append_digit,
        ih (n / 10) (by omega), (digit_char_props (n % 10) (by omega)).2.1]
      omega

theorem natChars_head_ne_zero : ∀ n : Nat, 1 ≤ n →
    (natChars n).head? ≠ some '0' := by
  intro n
  induction n using Nat.strong_induction_on with
  | _ n ih =>
    intro hn
    by_cases h : n < 10
    · rw [natChars_lt n h]
      simpa using (digit_char_props n h).2.2 hn
    · rw [natChars_ge n (by omega)]
      obtain ⟨c, cs, hcc⟩ : ∃ c cs, natChars (n / 10) = c :: cs := by
        cases hx : natChars (n / 10) with
        | nil => exact absurd hx (natChars_ne_nil _)
        | cons c cs => exact ⟨c, cs, rfl⟩
      rw [hcc, List.cons_append, List.head?_cons]
      have := ih (n / 10) (by omega) (by omega)
      rw [hcc, List.head?_cons] at this
      exact this

theorem natChars_no_leading_zero (n : Nat) :
    (1 < (natChars n).length && (natChars n).head? == some '0') = false := by
  by_cases h : n < 10
  · rw [natChars_lt n h]
    rfl
  · have h0 := natChars_head_ne_zero n (by omega)
    cases hb : (natChars n).head? == some '0'
    · rw [Bool.and_false]
    · exact absurd (by simpa using hb) h0

theorem takeWhile_all_of_append (p : Char → Bool) :
    ∀ (a rest : List Char), (∀ c ∈ a, p c = true) →
      (∀ c, rest.head? = some c → p c = false) →
      (a ++ rest).takeWhile p = a ∧ (a ++ rest).dropWhile p = rest := by
  intro a
  induction a with
  | nil =>
    intro rest _ hrest
    cases rest with
    | nil => exact ⟨rfl, rfl⟩
    | cons c t =>
      have hc := hrest c rfl
      constructor
      · rw [List.nil_append, List.takeWhile_cons, hc]
        rfl
      · rw [List.nil_append, List.dropWhile_cons, hc]
        rfl
  | cons x xs ih =>
    intro rest hall hrest
    have hx : p x = true := hall x (List.mem_cons_self x xs)
    obtain ⟨ht, hd⟩ := ih rest (fun c hc => hall c (List.mem_cons_of_mem x hc)) hrest
    constructor
    · rw [List.cons_append, List.takeWhile_cons, hx, ht]
      rfl
    · rw [List.cons_append, List.dropWhile_cons, hx]
      exact hd

theorem numBoundary_head (rest : List Char) (h : numBoundary rest = true) :
    ∀ c, rest.head? = some c →
      c.isDigit = false ∧ c ≠ '.' ∧ c ≠ 'e' ∧ c ≠ 'E' := by
  intro c hc
  cases rest with
  | nil => simp at hc
  | cons d t =>
    rw [List.head?_cons] at hc
    obtain rfl : d = c := by simpa using hc
    rw [numBoundary] at h
    simp only [Bool.not_eq_true'] at h
    rcases Bool.or_eq_false_iff.mp h with ⟨h1, h4⟩
    rcases Bool.or_eq_false_iff.mp h1 with ⟨h1, h3⟩
    rcases Bool.or_eq_false_iff.mp h1 with ⟨h1, h2⟩
    refine ⟨h1, by simpa using h2, by simpa using h3, by simpa using h4⟩

theorem parseNumTail_natChars (n : Nat) (rest : List Char)
    (hb : numBoundary rest = true) :
    parseNumTail (natChars n ++ rest) = some (n, rest) := by
  have hrest : ∀ c, rest.head? = some c → Char.isDigit c = false :=
    fun c hc => (numBoundary_head rest hb c hc).1
  obtain ⟨ht, hd⟩ := takeWhile_all_of_append Char.isDigit (natChars n) rest
    (natChars_all_digits n) hrest
  rw [parseNumTail]
  simp only [ht, hd]
  rw [if_neg (by simp [natChars_ne_nil n]), if_neg (by simp [natChars_no_leading_zero n])]
  cases hr : rest with
  | nil => rw [decimalValue_natChars]
  | cons c t =>
    obtain ⟨_, h2, h3, h4⟩ := numBoundary_head rest hb c (by rw [hr]; rfl)
    show (if (c = '.' || c = 'e' || c = 'E') then none
          else some (decimalValue (natChars n), c :: t)) = some (n, c :: t)
    rw [if_neg (by simp [h2, h3, h4]), decimalValue_natChars]

theorem parseNumber_intChars (n : Int) (rest : List Char)
    (hb : numBoundary rest = true) :
    parseNumber (intChars n ++ rest) = some (n, rest) := by
  by_cases hneg : n < 0
  · rw [intChars, if_pos hneg, List.cons_append, parseNumber, if_pos rfl,
      parseNumTail_natChars n.natAbs rest hb]
    show some (-(n.natAbs : Int), rest) = some (n, rest)
    have : -(n.natAbs : Int) = n := by omega
    rw [this]
  · rw [intChars, if_neg hneg]
    obtain ⟨c, cs, hcc⟩ : ∃ c cs, natChars n.toNat = c :: cs := by
      cases hx : natChars n.toNat with
      | nil => exact absurd hx (natChars_ne_nil _)
      | cons c cs => exact ⟨c, cs, rfl⟩
    have hcd : c.isDigit = true := natChars_all_digits n.toNat c (by rw [hcc]; simp)
    rw [hcc, List.cons_append, parseNumber,
      if_neg ((digit_not_special c hcd).2.2.2.2.2.2.2.2.2), ← List.cons_append, ← hcc,
      parseNumTail_natChars n.toNat rest hb]
    show some ((n.toNat : Int), rest) = some (n, rest)
    have : (n.toNat : Int) = n := by omega
    rw [this]

/-! ## C4: round-trip lemmas — string escaping -/

theorem hexVal_hexDigitChar : ∀ d : Nat, d < 16 → hexVal (hexDigitChar d) = some d := by
  decide

theorem parseStringBody_escape :
    ∀ (s rest : List Char),
      parseStringBody (escapeChars s ++ '"' :: rest) = some (s, rest) := by
  intro s
  induction s with
  | nil =>
    intro rest
    rw [escapeChars, List.nil_append, parseStringBody.eq_def]
    simp only [reduceIte]
  | cons c cs ih =>
    intro rest
    by_cases h1 : c = '"'
    · subst h1
      have he : escapeChar '"' = ['\\', '"'] := by decide
      rw [escapeChars, he, List.append_assoc]
      simp only [List.cons_append, List.nil_append]
      rw [parseStringBody.eq_def]
      simp only [if_neg (show ¬('\\' : Char) = '"' by decide),
        if_pos (rfl : ('\\' : Char) = '\\'),
        if_pos (rfl : ('"' : Char) = '"')]
      rw [ih rest]
      rfl
    · by_cases h2 : c = '\\'
      · subst h2
        have he : escapeChar '\\' = ['\\', '\\'] := by decide
        rw [escapeChars, he, List.append_assoc]
        simp only [List.cons_append, List.nil_append]
        rw [parseStringBody.eq_def]
        simp only [if_neg (show ¬('\\' : Char) = '"' by decide),
          if_pos (rfl : ('\\' : Char) = '\\'),
          if_neg (show ¬('\\' : Char) = '"' by decide),
          if_pos (rfl : ('\\' : Char) = '\\')]
        rw [ih rest]
        rfl
      · by_cases h3 : c = '\x08'
        · subst h3
          have he : escapeChar '\x08' = ['\\', 'b'] := by decide
          rw [escapeChars, he, List.append_assoc]
          simp only [List.cons_append, List.nil_append]
          rw [parseStringBody.eq_def]
          simp only [if_neg (show ¬('\\' : Char) = '"' by decide),
            if_pos (rfl : ('\\' : Char) = '\\'),
            if_neg (show ¬('b' : Char) = '"' by decide),
            if_neg (show ¬('b' : Char) = '\\' by decide),
            if_neg (show ¬('b' : Char) = '/' by decide),
            if_pos (rfl : ('b' : Char) = 'b')]
          rw [ih rest]
          rfl
        · by_cases h4 : c = '\x09'
          · subst h4
            have he : escapeChar '\x09' = ['\\', 't'] := by decide
            rw [escapeChars, he, List.append_assoc]
            simp only [List.cons_append, List.nil_append]
            rw [parseStringBody.eq_def]
            simp only [if_neg (show ¬('\\' : Char) = '"' by decide),
              if_pos (rfl : ('\\' : Char) = '\\'),
              if_neg (show ¬('t' : Char) = '"' by decide),
              if_neg (show ¬('t' : Char) = '\\' by decide),
              if_neg (show ¬('t' : Char) = '/' by decide),
              if_neg (show ¬('t' : Char) = 'b' by decide),
              if_neg (show ¬('t' : Char) = 'f' by decide),
              if_neg (show ¬('t' : Char) = 'n' by decide),
              if_neg (show ¬('t' : Char) = 'r' by decide),
              if_pos (rfl : ('t' : Char) = 't')]
            rw [ih rest]
            rfl
          · by_cases h5 : c = '\x0a'
            · subst h5
              have he : escapeChar '\x0a' = ['\\', 'n'] := by decide
              rw [escapeChars, he, List.append_assoc]
              simp only [List.cons_append, List.nil_append]
              rw [parseStringBody.eq_def]
              simp only [if_neg (show ¬('\\' : Char) = '"' by decide),
                if_pos (rfl : ('\\' : Char) = '\\'),
                if_neg (show ¬('n' : Char) = '"' by decide),
                if_neg (show ¬('n' : Char) = '\\' by decide),
                if_neg (show ¬('n' : Char) = '/' by decide),
                if_neg (show ¬('n' : Char) = 'b' by decide),
                if_neg (show ¬('n' : Char) = 'f' by decide),
                if_pos (rfl : ('n' : Char) = 'n')]
              rw [ih rest]
              rfl
            · by_cases h6 : c = '\x0c'
              · subst h6
                have he : escapeChar '\x0c' = ['\\', 'f'] := by decide
                rw [escapeChars, he, List.append_assoc]
                simp only [List.cons_append, List.nil_append]
                rw [parseStringBody.eq_def]
                simp only [if_neg (show ¬('\\' : Char) = '"' by decide),
                  if_pos (rfl : ('\\' : Char) = '\\'),
                  if_neg (show ¬('f' : Char) = '"' by decide),
                  if_neg (show ¬('f' : Char) = '\\' by decide),
                  if_neg (show ¬('f' : Char) = '/' by decide),
                  if_neg (show ¬('f' : Char) = 'b' by decide),
                  if_pos (rfl : ('f' : Char) = 'f')]
                rw [ih rest]
                rfl
              · by_cases h7 : c = '\x0d'
                · subst h7
                  have he : escapeChar '\x0d' = ['\\', 'r'] := by decide
                  rw [escapeChars, he, List.append_assoc]
                  simp only [List.cons_append, List.nil_append]
                  rw [parseStringBody.eq_def]
                  simp only [if_neg (show ¬('\\' : Char) = '"' by decide),
                    if_pos (rfl : ('\\' : Char) = '\\'),
                    if_neg (show ¬('r' : Char) = '"' by decide),
                    if_neg (show ¬('r' : Char) = '\\' by decide),
                    if_neg (show ¬('r' : Char) = '/' by decide),
                    if_neg (show ¬('r' : Char) = 'b' by decide),
                    if_neg (show ¬('r' : Char) = 'f' by decide),
                    if_neg (show ¬('r' : Char) = 'n' by decide),
                    if_pos (rfl : ('r' : Char) = 'r')]
                  rw [ih rest]
                  rfl
                · by_cases h8 : c.toNat < 32
                  · have hhi : hexVal (hexDigitChar (c.toNat / 16))
                        = some (c.toNat / 16) := hexVal_hexDigitChar _ (by omega)
                    have hlo : hexVal (hexDigitChar (c.toNat % 16))
                        = some (c.toNat % 16) := hexVal_hexDigitChar _ (by omega)
                    have hval : Nat.isValidChar
                        (((0 * 16 + 0) * 16 + c.toNat / 16) * 16 + c.toNat % 16) :=
                      Or.inl (by omega)
                    have hofn : Char.ofNat
                        (((0 * 16 + 0) * 16 + c.toNat / 16) * 16 + c.toNat % 16) = c := by
                      have hn : ((0 * 16 + 0) * 16 + c.toNat / 16) * 16 + c.toNat % 16
                          = c.toNat := by omega
                      rw [hn, Char.ofNat_toNat]
                    rw [escapeChars, escapeChar, if_neg h1, if_neg h2, if_neg h3,
                      if_neg h4, if_neg h5, if_neg h6, if_neg h7, if_pos h8,
                      List.append_assoc]
                    simp only [List.cons_append, List.nil_append]
                    rw [parseStringBody.eq_def]
                    simp only [if_neg (show ¬('\\' : Char) = '"' by decide),
                      if_pos (rfl : ('\\' : Char) = '\\'),
                      if_neg (show ¬('u' : Char) = '"' by decide),
                      if_neg (show ¬('u' : Char) = '\\' by decide),
                      if_neg (show ¬('u' : Char) = '/' by decide),
                      if_neg (show ¬('u' : Char) = 'b' by decide),
                      if_neg (show ¬('u' : Char) = 'f' by decide),
                      if_neg (show ¬('u' : Char) = 'n' by decide),
                      if_neg (show ¬('u' : Char) = 'r' by decide),
                      if_neg (show ¬('u' : Char) = 't' by decide),
                      if_pos (rfl : ('u' : Char) = 'u'),
                      (show hexVal '0' = some 0 by decide), hhi, hlo]
                    rw [if_pos hval, hofn, ih rest]
                    rfl
                  · rw [escapeChars, escapeChar, if_neg h1, if_neg h2, if_neg h3,
                      if_neg h4, if_neg h5, if_neg h6, if_neg h7, if_neg h8,
                      List.append_assoc]
                    simp only [List.cons_append, List.nil_append]
                    rw [parseStringBody.eq_def]
                    simp only [if_neg h1, if_neg h2, if_neg h8]
                    rw [ih rest]
                    rfl

/-! ## C4: round-trip lemmas — heads of serialized output -/

theorem natChars_head_digit (n : Nat) :
    ∃ c cs, natChars n = c :: cs ∧ c.isDigit = true := by
  cases hx : natChars n with
  | nil => exact absurd hx (natChars_ne_nil n)
  | cons c cs => exact ⟨c, cs, rfl, natChars_all_digits n c (by rw [hx]; simp)⟩

theorem intChars_head (n : Int) :
    ∃ c t, intChars n = c :: t ∧ ((c = '-') ∨ c.isDigit = true) ∧
      c ≠ 'n' ∧ c ≠ 't' ∧ c ≠ 'f' ∧ c ≠ '"' ∧ c ≠ '[' ∧ c ≠ '\x7b' ∧
      isWsChar c = false ∧ c ≠ ']' ∧ c ≠ '\x7d' := by
  rw [intChars]
  by_cases hneg : n < 0
  · rw [if_pos hneg]
    exact ⟨'-', _, rfl, Or.inl rfl, by decide, by decide, by decide, by decide,
      by decide, by decide, by decide, by decide, by decide⟩
  · rw [if_neg hneg]
    obtain ⟨c, cs, hcc, hcd⟩ := natChars_head_digit n.toNat
    obtain ⟨hw, hr, hbr, hn, ht, hf, hq, hlb, hlbr, _⟩ := digit_not_special c hcd
    exact ⟨c, cs, hcc, Or.inr hcd, hn, ht, hf, hq, hlb, hlbr, hw, hr, hbr⟩

theorem serialize_head (v : Value) :
    ∃ c t, serialize v = c :: t ∧ isWsChar c = false ∧ c ≠ ']' ∧ c ≠ '\x7d' := by
  cases v with
  | null =>
    refine ⟨'n', ['u', 'l', 'l'], ?_, by decide, by decide, by decide⟩
    rw [serialize]
  | bool b =>
    cases b with
    | true =>
      refine ⟨'t', ['r', 'u', 'e'], ?_, by decide, by decide, by decide⟩
      rw [serialize]
    | false =>
      refine ⟨'f', ['a', 'l', 's', 'e'], ?_, by decide, by decide, by decide⟩
      rw [serialize]
  | num n =>
    obtain ⟨c, t, hct, _, _, _, _, _, _, _, hw, hr, hbr⟩ := intChars_head n
    refine ⟨c, t, ?_, hw, hr, hbr⟩
    rw [serialize, hct]
  | str s =>
    refine ⟨'"', escapeChars s ++ ['"'], ?_, by decide, by decide, by decide⟩
    rw [serialize, quoteChars, List.cons_append]
  | arr xs =>
    refine ⟨'[', serializeItems xs, ?_, by decide, by decide, by decide⟩
    rw [serialize]
  | obj es =>
    refine ⟨'\x7b', serializeEntries es, ?_, by decide, by decide, by decide⟩
    rw [serialize]

theorem skipWs_cons (c : Char) (l : List Char) (h : isWsChar c = false) :
    skipWs (c :: l) = c :: l := by
  rw [skipWs, List.dropWhile_cons, h]
  rfl

theorem skipWs_serialize_append (v : Value) (X : List Char) :
    skipWs (serialize v ++ X) = serialize v ++ X := by
  obtain ⟨c, t, hc, hw, _, _⟩ := serialize_head v
  rw [hc, List.cons_append, skipWs_cons c _ hw]

theorem serializeItems_shape (x : Value) (xs : List Value) :
    ∃ T, serializeItems (x :: xs) = serialize x ++ T := by
  cases xs with
  | nil => exact ⟨[']'], by rw [serializeItems]⟩
  | cons y ys =>
    exact ⟨',' :: serializeItems (y :: ys), by rw [serializeItems]⟩

theorem serializeEntries_shape (k : List Char) (w : Value)
    (es : List (List Char × Value)) :
    ∃ T, serializeEntries ((k, w) :: es) =
      '"' :: (escapeChars k ++ ('"' :: (':' :: (serialize w ++ T)))) := by
  cases es with
  | nil =>
    refine ⟨['\x7d'], ?_⟩
    rw [serializeEntries, quoteChars]
    simp [List.append_assoc]
  | cons e2 es2 =>
    refine ⟨',' :: serializeEntries (e2 :: es2), ?_⟩
    rw [serializeEntries, quoteChars]
    simp [List.append_assoc]

theorem fuelOfVal_pos (v : Value) : 1 ≤ fuelOfVal v := by
  cases v <;> (simp [fuelOfVal]; try omega)

theorem fuelOfItems_cons_pos (x : Value) (xs : List Value) :
    1 ≤ fuelOfItems (x :: xs) := by
  rw [fuelOfItems]
  omega

theorem fuelOfEntries_cons_pos (k : List Char) (w : Value)
    (es : List (List Char × Value)) : 1 ≤ fuelOfEntries ((k, w) :: es) := by
  rw [fuelOfEntries]
  omega

/-! ## C4: the round trip itself, by induction on the parsing fuel -/

theorem parse_serialize_stage : ∀ fuel : Nat,
    (∀ (v : Value) (rest : List Char), fuelOfVal v ≤ fuel → numBoundary rest = true →
      parseVal fuel (serialize v ++ rest) = some (v, rest)) ∧
    (∀ (x : Value) (xs : List Value) (rest : List Char), fuelOfItems (x :: xs) ≤ fuel →
      parseElems fuel (serializeItems (x :: xs) ++ rest) = some (x :: xs, rest)) ∧
    (∀ (k : List Char) (w : Value) (es : List (List Char × Value)) (rest : List Char),
      fuelOfEntries ((k, w) :: es) ≤ fuel →
      parseMembers fuel (serializeEntries ((k, w) :: es) ++ rest)
        = some ((k, w) :: es, rest)) := by
  intro fuel
  induction fuel with
  | zero =>
    refine ⟨fun v rest hf _ => absurd hf (by have := fuelOfVal_pos v; omega),
      fun x xs rest hf => absurd hf (by have := fuelOfItems_cons_pos x xs; omega),
      fun k w es rest hf => absurd hf (by have := fuelOfEntries_cons_pos k w es; omega)⟩
  | succ fuel ih =>
    obtain ⟨ihP, ihQ, ihR⟩ := ih
    refine ⟨?_, ?_, ?_⟩
    · intro v rest hf hb
      cases v with
      | null =>
        rw [serialize]
        simp only [List.cons_append, List.nil_append]
        rw [parseVal]
        simp only [reduceIte, expectTail, Option.map_some']
      | bool b =>
        cases b with
        | true =>
          rw [serialize]
          simp only [List.cons_append, List.nil_append]
          rw [parseVal]
          simp only [reduceIte, expectTail, Option.map_some', if_neg (show ¬('t' : Char) = 'n' by decide)]
        | false =>
          rw [serialize]
          simp only [List.cons_append, List.nil_append]
          rw [parseVal]
          simp only [reduceIte, expectTail, Option.map_some', if_neg (show ¬('f' : Char) = 'n' by decide),
            if_neg (show ¬('f' : Char) = 't' by decide)]
      | num n =>
        obtain ⟨c, t, hct, hcm, hn, ht2, hf2, hq, hlb, hlbr, _, _, _⟩ := intChars_head n
        rw [serialize, hct, List.cons_append, parseVal, if_neg hn, if_neg ht2,
          if_neg hf2, if_neg hq, if_neg hlb, if_neg hlbr,
          if_pos (show (c = '-' || c.isDigit) = true by
            rcases hcm with h | h
            · simp [h]
            · simp [h]),
          ← List.cons_append, ← hct, parseNumber_intChars n rest hb]
        rfl
      | str s =>
        rw [serialize, quoteChars]
        simp only [List.cons_append, List.append_assoc, List.nil_append]
        rw [parseVal]
        simp only [reduceIte, if_neg (show ¬('"' : Char) = 'n' by decide),
          if_neg (show ¬('"' : Char) = 't' by decide),
          if_neg (show ¬('"' : Char) = 'f' by decide)]
        rw [parseStringBody_escape s rest]
        rfl
      | arr xs =>
        cases xs with
        | nil =>
          rw [serialize, serializeItems]
          simp only [List.cons_append, List.nil_append]
          rw [parseVal]
          simp only [reduceIte, if_neg (show ¬('[' : Char) = 'n' by decide),
            if_neg (show ¬('[' : Char) = 't' by decide),
            if_neg (show ¬('[' : Char) = 'f' by decide),
            if_neg (show ¬('[' : Char) = '"' by decide)]
          rw [skipWs_cons ']' rest (by decide)]
          simp only [reduceIte, if_neg (show ¬(']' : Char) = ',' by decide)]
        | cons x xs2 =>
          rw [fuelOfVal] at hf
          rw [serialize]
          simp only [List.cons_append]
          rw [parseVal]
          simp only [reduceIte, if_neg (show ¬('[' : Char) = 'n' by decide),
            if_neg (show ¬('[' : Char) = 't' by decide),
            if_neg (show ¬('[' : Char) = 'f' by decide),
            if_neg (show ¬('[' : Char) = '"' by decide)]
          obtain ⟨T, hT⟩ := serializeItems_shape x xs2
          obtain ⟨c, t, hc, hw, hr, hbr⟩ := serialize_head x
          have hshape : serializeItems (x :: xs2) ++ rest = c :: (t ++ (T ++ rest)) := by
            rw [hT, hc]
            simp [List.append_assoc]
          rw [hshape, skipWs_cons c _ hw]
          simp only [reduceIte]
          rw [if_neg hr, ← hshape, ihQ x xs2 rest (by omega)]
          rfl
      | obj es =>
        cases es with
        | nil =>
          rw [serialize, serializeEntries]
          simp only [List.cons_append, List.nil_append]
          rw [parseVal]
          simp only [reduceIte, if_neg (show ¬('\x7b' : Char) = 'n' by decide),
            if_neg (show ¬('\x7b' : Char) = 't' by decide),
            if_neg (show ¬('\x7b' : Char) = 'f' by decide),
            if_neg (show ¬('\x7b' : Char) = '"' by decide),
            if_neg (show ¬('\x7b' : Char) = '[' by decide)]
          rw [skipWs_cons '\x7d' rest (by decide)]
          simp only [reduceIte]
        | cons e es2 =>
          obtain ⟨k, w⟩ := e
          rw [fuelOfVal] at hf
          rw [serialize]
          simp only [List.cons_append]
          rw [parseVal]
          simp only [reduceIte, if_neg (show ¬('\x7b' : Char) = 'n' by decide),
            if_neg (show ¬('\x7b' : Char) = 't' by decide),
            if_neg (show ¬('\x7b' : Char) = 'f' by decide),
            if_neg (show ¬('\x7b' : Char) = '"' by decide),
            if_neg (show ¬('\x7b' : Char) = '[' by decide)]
          obtain ⟨T, hT⟩ := serializeEntries_shape k w es2
          have hshape : serializeEntries ((k, w) :: es2) ++ rest
              = '"' :: ((escapeChars k ++ ('"' :: (':' :: (serialize w ++ T)))) ++ rest) := by
            rw [hT, List.cons_append]
          rw [hshape, skipWs_cons '"' _ (by decide)]
          simp only [reduceIte]
          rw [if_neg (show ¬('"' : Char) = '\x7d' by decide), ← hshape,
            ihR k w es2 rest (by omega)]
          rfl
    · intro x xs rest hf
      rw [fuelOfItems] at hf
      cases xs with
      | nil =>
        rw [serializeItems, List.append_assoc]
        simp only [List.cons_append, List.nil_append]
        rw [parseElems]
        rw [ihP x (']' :: rest) (by omega) (by rw [numBoundary]; rfl)]
        simp only [reduceIte]
        rw [skipWs_cons ']' rest (by decide)]
        simp only [reduceIte, if_neg (show ¬(']' : Char) = ',' by decide)]
      | cons y ys =>
        rw [serializeItems, List.append_assoc]
        simp only [List.cons_append]
        rw [parseElems]
        rw [ihP x (',' :: (serializeItems (y :: ys) ++ rest)) (by omega)
          (by rw [numBoundary]; rfl)]
        simp only [reduceIte]
        rw [skipWs_cons ',' _ (by decide)]
        simp only [reduceIte]
        obtain ⟨T, hT⟩ := serializeItems_shape y ys
        obtain ⟨c, t, hc, hw, hr, hbr⟩ := serialize_head y
        have hshape : serializeItems (y :: ys) ++ rest = c :: (t ++ (T ++ rest)) := by
          rw [hT, hc]
          simp [List.append_assoc]
        rw [hshape, skipWs_cons c _ hw, ← hshape, ihQ y ys rest (by omega)]
    · intro k w es rest hf
      rw [fuelOfEntries] at hf
      cases es with
      | nil =>
        rw [serializeEntries, quoteChars]
        simp only [List.cons_append, List.append_assoc, List.nil_append]
        rw [parseMembers]
        simp only [reduceIte]
        rw [parseStringBody_escape k (':' :: (serialize w ++ ('\x7d' :: rest)))]
        simp only [reduceIte]
        rw [skipWs_cons ':' _ (by decide)]
        simp only [reduceIte]
        rw [skipWs_serialize_append w ('\x7d' :: rest)]
        rw [ihP w ('\x7d' :: rest) (by omega) (by rw [numBoundary]; rfl)]
        simp only [reduceIte]
        rw [skipWs_cons '\x7d' rest (by decide)]
        simp only [reduceIte, if_neg (show ¬('\x7d' : Char) = ',' by decide)]
      | cons e2 es2 =>
        obtain ⟨k2, w2⟩ := e2
        rw [serializeEntries, quoteChars]
        simp only [List.cons_append, List.append_assoc, List.nil_append]
        rw [parseMembers]
        simp only [reduceIte]
        rw [parseStringBody_escape k
          (':' :: (serialize w ++ (',' :: (serializeEntries ((k2, w2) :: es2) ++ rest))))]
        simp only [reduceIte]
        rw [skipWs_cons ':' _ (by decide)]
        simp only [reduceIte]
        rw [skipWs_serialize_append w
          (',' :: (serializeEntries ((k2, w2) :: es2) ++ rest))]
        rw [ihP w (',' :: (serializeEntries ((k2, w2) :: es2) ++ rest)) (by omega)
          (by rw [numBoundary]; rfl)]
        simp only [reduceIte]
        rw [skipWs_cons ',' _ (by decide)]
        simp only [reduceIte]
        obtain ⟨T2, hT2⟩ := serializeEntries_shape k2 w2 es2
        have hsh : serializeEntries ((k2, w2) :: es2) ++ rest
            = '"' :: ((escapeChars k2 ++ ('"' :: (':' :: (serialize w2 ++ T2)))) ++ rest) := by
          rw [hT2, List.cons_append]
        rw [hsh, skipWs_cons '"' _ (by decide), ← hsh, ihR k2 w2 es2 rest (by omega)]

/-! ## C4: enough fuel for a serialized document, and the claim -/

set_option linter.unusedVariables false in
theorem value_ind (P : Value → Prop) (hnull : P .null) (hbool : ∀ b, P (.bool b))
    (hnum : ∀ n, P (.num n)) (hstr : ∀ s, P (.str s))
    (harr : ∀ xs, (∀ x ∈ xs, P x) → P (.arr xs))
    (hobj : ∀ es, (∀ e ∈ es, P e.2) → P (.obj es)) : ∀ v, P v := fun v =>
  match v with
  | .null => hnull
  | .bool b => hbool b
  | .num n => hnum n
  | .str s => hstr s
  | .arr xs => harr xs (fun x hx => value_ind P hnull hbool hnum hstr harr hobj x)
  | .obj es => hobj es (fun e he => value_ind P hnull hbool hnum hstr harr hobj e.2)
termination_by v => sizeOf v
decreasing_by
  · have := List.sizeOf_lt_of_mem hx
    simp
    omega
  · have := List.sizeOf_lt_of_mem he
    obtain ⟨a, b⟩ := e
    simp at this ⊢
    omega

theorem items_fuel_le (xs : List Value)
    (h : ∀ x ∈ xs, fuelOfVal x ≤ (serialize x).length) :
    fuelOfItems xs ≤ (serializeItems xs).length := by
  induction xs with
  | nil =>
    rw [fuelOfItems, serializeItems]
    simp
  | cons x xs2 ih =>
    rw [fuelOfItems]
    have hx := h x (List.mem_cons_self x xs2)
    cases xs2 with
    | nil =>
      rw [serializeItems]
      have h0 : fuelOfItems ([] : List Value) = 0 := by rw [fuelOfItems]
      rw [h0]
      simp only [List.length_append, List.length_cons, List.length_nil]
      omega
    | cons y ys =>
      rw [serializeItems]
      have hys := ih (fun z hz => h z (List.mem_cons_of_mem x hz))
      simp only [List.length_append, List.length_cons]
      omega

theorem entries_fuel_le (es : List (List Char × Value))
    (h : ∀ e ∈ es, fuelOfVal e.2 ≤ (serialize e.2).length) :
    fuelOfEntries es ≤ (serializeEntries es).length := by
  induction es with
  | nil =>
    rw [fuelOfEntries, serializeEntries]
    simp
  | cons e es2 ih =>
    obtain ⟨k, w⟩ := e
    rw [fuelOfEntries]
    have hw : fuelOfVal w ≤ (serialize w).length :=
      h (k, w) (List.mem_cons_self (k, w) es2)
    cases es2 with
    | nil =>
      rw [serializeEntries]
      have h0 : fuelOfEntries ([] : List (List Char × Value)) = 0 := by
        rw [fuelOfEntries]
      rw [h0]
      simp only [List.length_append, List.length_cons, List.length_nil]
      omega
    | cons e2 es3 =>
      rw [serializeEntries]
      have hes := ih (fun z hz => h z (List.mem_cons_of_mem (k, w) hz))
      simp only [List.length_append, List.length_cons]
      omega

theorem serialize_fuel_le : ∀ v : Value, fuelOfVal v ≤ (serialize v).length := by
  refine value_ind (fun v => fuelOfVal v ≤ (serialize v).length) ?_ ?_ ?_ ?_ ?_ ?_
  · show fuelOfVal Value.null ≤ (serialize Value.null).length
    rw [serialize]
    simp [fuelOfVal]
  · intro b
    show fuelOfVal (Value.bool b) ≤ (serialize (Value.bool b)).length
    cases b <;> (rw [serialize]; simp [fuelOfVal])
  · intro n
    show fuelOfVal (Value.num n) ≤ (serialize (Value.num n)).length
    obtain ⟨c, t, hct, _⟩ := intChars_head n
    rw [serialize, hct]
    simp [fuelOfVal]
  · intro s
    show fuelOfVal (Value.str s) ≤ (serialize (Value.str s)).length
    rw [serialize, quoteChars]
    simp [fuelOfVal]
  · intro xs h
    show fuelOfVal (Value.arr xs) ≤ (serialize (Value.arr xs)).length
    rw [serialize, fuelOfVal]
    have := items_fuel_le xs h
    simp only [List.length_cons]
    omega
  · intro es h
    show fuelOfVal (Value.obj es) ≤ (serialize (Value.obj es)).length
    rw [serialize, fuelOfVal]
    have := entries_fuel_le es h
    simp only [List.length_cons]
    omega

theorem parseStrict_serialize (v : Value) : parseStrict (serialize v) = some v := by
  rw [parseStrict]
  have hskip : skipWs (serialize v) = serialize v := by
    have h := skipWs_serialize_append v []
    simpa using h
  rw [hskip]
  have hP := (parse_serialize_stage ((serialize v).length + 1)).1 v []
    (by have := serialize_fuel_le v; omega) rfl
  rw [List.append_nil] at hP
  rw [hP]
  rfl

/-- C4: round-trip through serialization and strict parsing preserves
addressability — for every value v and every path that resolves to a node
of v, strict-parsing the serialization of v succeeds and resolving the same
path against the parsed value yields exactly that node. -/
theorem C4_roundtrip_preserves_addressability (v : Value) (p : List Char)
    (n : Value) (h : get_by_path v p = some n) :
    ∃ w, parseStrict (serialize v) = some w ∧ get_by_path w p = some n :=
  ⟨v, parseStrict_serialize v, h⟩

/-- Closed instance of C4 at a concrete document and path, discharging the
hypothesis by computation. -/
theorem C4_roundtrip_preserves_addressability_witness :
    ∃ w, parseStrict (serialize (.obj [("a".toList, .arr [.num 1, .num 2, .num 3])]))
        = some w ∧ get_by_path w ("a[2]".toList) = some (.num 3) :=
  C4_roundtrip_preserves_addressability _ _ _ (by rfl)

end Swiftline
